import Mathlib

/-!
Shallow embedding of the saga-pattern distributed-transaction orchestrator
(`src/orchestrator/transaction-orchestrator.ts`, `transaction-step`,
`distributed-transaction`, `types`).  JavaScript objects become Lean
structures, the mutable step table becomes an association list threaded
through every operation, thrown errors become `Except String`, and the
recursive execution driver takes explicit fuel.
-/

namespace Saga

/-- Step and flow states, from the `TransactionState` enum in `types`. -/
inductive TransactionState where
  | NOT_STARTED
  | INVOKING
  | WAITING_TO_COMPENSATE
  | COMPENSATING
  | DONE
  | REVERTED
  | FAILED
  | DORMANT
  | SKIPPED
  deriving DecidableEq, Repr

/-- Step statuses, from the `TransactionStepStatus` enum in `types`. -/
inductive TransactionStepStatus where
  | IDLE
  | OK
  | WAITING
  | TEMPORARY_FAILURE
  | PERMANENT_FAILURE
  deriving DecidableEq, Repr

/-- Handler phases, from the `TransactionHandlerType` enum in `types`. -/
inductive TransactionHandlerType where
  | INVOKE
  | COMPENSATE
  deriving DecidableEq, Repr

/-- The wire string of a handler phase (the enum values are the strings
"invoke" and "compensate"). -/
def TransactionHandlerType.str : TransactionHandlerType → String
  | .INVOKE => "invoke"
  | .COMPENSATE => "compensate"

/-- The per-step policy record: a `TransactionStepsDefinition` with its
`next` field removed (the `definitionCopy` computed in `buildSteps`). -/
structure StepDefinition where
  action : Option String
  maxRetries : Option Nat := none
  continueOnPermanentFailure : Bool := false
  noWait : Bool := false
  noCompensation : Bool := false
  forwardResponse : Option Bool := none
  deriving DecidableEq, Repr

/-- One state/status pair (the `invoke` and `compensate` records of a step). -/
structure StepStates where
  state : TransactionState
  status : TransactionStepStatus
  deriving DecidableEq, Repr

/-- The `TransactionStep` class.  `response` is opaque in the source; a
`Nat` stands in for the opaque payload value. -/
structure TransactionStep where
  stepFailed : Bool := false
  id : String
  definition : StepDefinition
  invoke : StepStates
  compensate : StepStates
  next : List String
  depth : Nat
  lastAttempt : Option Nat := none
  attempts : Nat := 0
  failures : Nat := 0
  forwardResponse : Bool := true
  response : Option Nat := none
  deriving DecidableEq, Repr

namespace TransactionStep

/-- `isCompensating()` returns the private `stepFailed` flag. -/
def isCompensating (s : TransactionStep) : Bool := s.stepFailed

/-- `getStates()` selects the active pair: `compensate` when the step
failed, otherwise `invoke`. -/
def getStates (s : TransactionStep) : StepStates :=
  if s.stepFailed then s.compensate else s.invoke

/-- Writing back the active pair (the source mutates the object returned
by `getStates`). -/
def setStates (s : TransactionStep) (p : StepStates) : TransactionStep :=
  if s.stepFailed then { s with compensate := p } else { s with invoke := p }

/-- `beginCompensation()`: flip `stepFailed` and reset the retry counters,
a no-op when the step is already compensating. -/
def beginCompensation (s : TransactionStep) : TransactionStep :=
  if s.isCompensating then s
  else { s with stepFailed := true, attempts := 0, failures := 0, lastAttempt := none }

/-- The `allowed` table of `changeState`; states missing from the record
map to no targets. -/
def allowedStateTargets : TransactionState → List TransactionState
  | .DORMANT => [.NOT_STARTED]
  | .NOT_STARTED => [.INVOKING, .COMPENSATING, .FAILED, .SKIPPED]
  | .INVOKING => [.FAILED, .DONE]
  | .COMPENSATING => [.REVERTED, .FAILED]
  | .DONE => [.COMPENSATING]
  | _ => []

/-- `changeState(toState)`: allowed when the target equals the current
active state or appears in the allowed table; otherwise it throws. -/
def changeState (s : TransactionStep) (toState : TransactionState) :
    Except String TransactionStep :=
  let cur := s.getStates
  if cur.state = toState ∨ toState ∈ allowedStateTargets cur.state then
    .ok (s.setStates { cur with state := toState })
  else
    .error "updating state is not allowed"

/-- The `allowed` table of `changeStatus`. -/
def allowedStatusTargets : TransactionStepStatus → List TransactionStepStatus
  | .WAITING => [.OK, .TEMPORARY_FAILURE, .PERMANENT_FAILURE]
  | .TEMPORARY_FAILURE => [.IDLE, .PERMANENT_FAILURE]
  | .PERMANENT_FAILURE => [.IDLE]
  | _ => []

/-- `changeStatus(toStatus)`: allowed when the target equals the current
status, is `WAITING` (rescheduling is always allowed), or appears in the
allowed table; otherwise it throws. -/
def changeStatus (s : TransactionStep) (toStatus : TransactionStepStatus) :
    Except String TransactionStep :=
  let cur := s.getStates
  if cur.status = toStatus ∨ toStatus = .WAITING ∨
      toStatus ∈ allowedStatusTargets cur.status then
    .ok (s.setStates { cur with status := toStatus })
  else
    .error "updating status is not allowed"

/-- `canInvoke(flowState)`. -/
def canInvoke (s : TransactionStep) (flowState : TransactionState) : Bool :=
  (!s.isCompensating && s.getStates.state == .NOT_STARTED
      && flowState == .INVOKING)
    || s.getStates.status == .TEMPORARY_FAILURE

/-- `canCompensate(flowState)`. -/
def canCompensate (s : TransactionStep) (flowState : TransactionState) : Bool :=
  s.isCompensating && s.getStates.state == .NOT_STARTED
    && flowState == .COMPENSATING

end TransactionStep

/-- The `TransactionFlow` record.  The step table keeps JavaScript object
key insertion order as an association list. -/
structure TransactionFlow where
  transactionModelId : String
  transactionId : String
  state : TransactionState
  hasSkippedSteps : Bool := false
  hasFailedSteps : Bool := false
  steps : List (String × TransactionStep)
  deriving DecidableEq, Repr

def ROOT_STEP : String := "_root"

def DEFAULT_RETRIES : Nat := 3

def SEPARATOR : String := ":"

/-- `TransactionOrchestrator.getKeyName(...params)`: join with the `:`
separator. -/
def getKeyName (params : List String) : String :=
  String.intercalate SEPARATOR params

/-- Reading `flow.steps[id]`; `none` models the `undefined` a missing key
yields. -/
def getStep (flow : TransactionFlow) (id : String) : Option TransactionStep :=
  (flow.steps.find? (fun p => p.1 == id)).map (fun p => p.2)

/-- Writing `flow.steps[id] = s` for a key that is already present. -/
def updateStep (flow : TransactionFlow) (id : String) (s : TransactionStep) :
    TransactionFlow :=
  { flow with steps := flow.steps.map (fun p => if p.1 == id then (p.1, s) else p) }

/-- Splitting a character list at every occurrence of a separator
character; the segments between separators are returned in order, with
empty segments kept, exactly as `split` for a one-character separator. -/
def splitChars (sep : Char) : List Char → List (List Char)
  | [] => [[]]
  | c :: rest =>
    let r := splitChars sep rest
    if c == sep then [] :: r
    else
      match r with
      | [] => [[c]]
      | seg :: segs => (c :: seg) :: segs

/-- `s.split(sep)` for a one-character separator, implemented over the
character list so that it evaluates inside the kernel. -/
def splitOnChar (s : String) (sep : Char) : List String :=
  (splitChars sep s.data).map String.mk

/-- `getPreviousStep` splits the id on `.`, drops the last segment and
joins again to obtain the parent id. -/
def getParentId (id : String) : String :=
  String.intercalate "." ((splitOnChar id '.').dropLast)

/-- `getPreviousStep(flow, step)`. -/
def getPreviousStep (flow : TransactionFlow) (step : TransactionStep) :
    Option TransactionStep :=
  getStep flow (getParentId step.id)

/-- The terminal compensate states admitted by `canMoveBackward`. -/
def compensateDoneStates : List TransactionState :=
  [.DONE, .REVERTED, .FAILED, .DORMANT]

/-- `siblings.every(sib => states.includes(sib.compensate.state))` with the
crash a missing sibling causes surfaced as an error; like `every`, the
walk short-circuits on the first failing element. -/
def allCompensateSettled (flow : TransactionFlow) :
    List String → Except String Bool
  | [] => .ok true
  | sib :: rest =>
    match getStep flow sib with
    | none => .error "undefined step"
    | some s =>
      if s.compensate.state ∈ compensateDoneStates then
        allCompensateSettled flow rest
      else
        .ok false

/-- `canMoveBackward(flow, step)`: true when the step has no children or
every child has a terminal compensate state. -/
def canMoveBackward (flow : TransactionFlow) (step : TransactionStep) :
    Except String Bool :=
  if step.next.isEmpty then .ok true
  else allCompensateSettled flow step.next

/-- The terminal invoke states admitted by `canMoveForward`. -/
def invokeDoneStates : List TransactionState := [.DONE, .FAILED, .SKIPPED]

/-- `siblings.every(sib => states.includes(sib.invoke.state))`, with the
same short-circuit behaviour as `allCompensateSettled`. -/
def allInvokeFinished (flow : TransactionFlow) :
    List String → Except String Bool
  | [] => .ok true
  | sib :: rest =>
    match getStep flow sib with
    | none => .error "undefined step"
    | some s =>
      if s.invoke.state ∈ invokeDoneStates then
        allInvokeFinished flow rest
      else
        .ok false

/-- `canMoveForward(flow, previousStep)`: true when the predecessor is
`noWait` or every sibling under its parent has a terminal invoke state.
The parent lookup happens before the `noWait` short-circuit, as in the
source. -/
def canMoveForward (flow : TransactionFlow) (previousStep : TransactionStep) :
    Except String Bool :=
  match getPreviousStep flow previousStep with
  | none => .error "undefined parent"
  | some parent =>
    if previousStep.definition.noWait then .ok true
    else allInvokeFinished flow parent.next

/-- `canContinue(flow, step)`: during `COMPENSATING` delegate to
`canMoveBackward`; otherwise children of the root may always continue and
other steps delegate to `canMoveForward` on their parent. -/
def canContinue (flow : TransactionFlow) (step : TransactionStep) :
    Except String Bool :=
  if flow.state = .COMPENSATING then canMoveBackward flow step
  else
    match getPreviousStep flow step with
    | none => .error "undefined parent"
    | some previous =>
      if previous.id == ROOT_STEP then .ok true
      else canMoveForward flow previous

/-- Stable insertion used to model `Array.prototype.sort` (stable since
ES2019): an element is placed after every already-placed element the
comparator does not order strictly after it. -/
def sortInsert (le : α → α → Bool) (x : α) : List α → List α
  | [] => [x]
  | y :: ys => if le y x then y :: sortInsert le x ys else x :: y :: ys

/-- Stable sort by repeated insertion, processing elements left to right. -/
def stableSort (le : α → α → Bool) (l : List α) : List α :=
  l.foldl (fun acc x => sortInsert le x acc) []

/-- Depth of a step id inside a flow (the root step carries depth 0). -/
def depthOf (flow : TransactionFlow) (id : String) : Nat :=
  ((getStep flow id).map (fun s => s.depth)).getD 0

/-- `getInvokeSteps`: all step ids sorted by ascending depth (stable, so
the root stays first and definition order is kept within a depth). -/
def getInvokeSteps (flow : TransactionFlow) : List String :=
  stableSort (fun a b => depthOf flow a ≤ depthOf flow b)
    (flow.steps.map (fun p => p.1))

/-- `getCompensationSteps`: all step ids sorted by descending depth. -/
def getCompensationSteps (flow : TransactionFlow) : List String :=
  stableSort (fun a b => depthOf flow b ≤ depthOf flow a)
    (flow.steps.map (fun p => p.1))

/-- The mutable locals of the `checkAllSteps` loop. -/
structure PassResult where
  hasSkipped : Bool := false
  hasIgnoredFailure : Bool := false
  hasFailed : Bool := false
  hasWaiting : Bool := false
  hasReverted : Bool := false
  completed : Nat := 0
  nextIds : List String := []
  deriving DecidableEq, Repr

/-- One iteration of the `checkAllSteps` loop body for step id `stepId`. -/
def classifyStep (flow : TransactionFlow) (acc : PassResult) (stepId : String) :
    Except String PassResult :=
  if stepId == ROOT_STEP then .ok acc
  else
    match getStep flow stepId with
    | none => .error "undefined step"
    | some stepDef => do
      let cont ← canContinue flow stepDef
      if !cont then .ok acc
      else
        let cur := stepDef.getStates
        if cur.status == .WAITING then .ok { acc with hasWaiting := true }
        else if stepDef.canInvoke flow.state || stepDef.canCompensate flow.state then
          .ok { acc with nextIds := acc.nextIds ++ [stepId] }
        else
          let acc := { acc with completed := acc.completed + 1 }
          if cur.state == .SKIPPED then .ok { acc with hasSkipped := true }
          else if cur.state == .REVERTED then .ok { acc with hasReverted := true }
          else if cur.state == .FAILED then
            if stepDef.definition.continueOnPermanentFailure then
              .ok { acc with hasIgnoredFailure := true }
            else
              .ok { acc with hasFailed := true }
          else .ok acc

/-- The full loop of `checkAllSteps` over the chosen ordering. -/
def runPass (flow : TransactionFlow) (ids : List String) :
    Except String PassResult :=
  ids.foldlM (classifyStep flow) {}

/-- How one step is treated by the `checkAllSteps` loop; this mirrors the
decision tree of `classifyStep` and is used to state quantified facts
about a whole pass. -/
inductive StepClass where
  | root
  | blocked
  | waiting
  | dispatch
  | doneSkipped
  | doneReverted
  | doneFatal
  | doneIgnored
  | doneOther
  | crash
  deriving DecidableEq, Repr

/-- The classification of a step id in a pass over `flow`. -/
def classOf (flow : TransactionFlow) (stepId : String) : StepClass :=
  if stepId == ROOT_STEP then .root
  else
    match getStep flow stepId with
    | none => .crash
    | some stepDef =>
      match canContinue flow stepDef with
      | .error _ => .crash
      | .ok cont =>
        if !cont then .blocked
        else
          let cur := stepDef.getStates
          if cur.status == .WAITING then .waiting
          else if stepDef.canInvoke flow.state || stepDef.canCompensate flow.state then
            .dispatch
          else if cur.state == .SKIPPED then .doneSkipped
          else if cur.state == .REVERTED then .doneReverted
          else if cur.state == .FAILED then
            if stepDef.definition.continueOnPermanentFailure then .doneIgnored
            else .doneFatal
          else .doneOther

/-- One iteration of the `flagStepsToRevert` loop: a `DONE` or permanently
failed step that does not opt out of compensation begins compensation and
has its compensate state moved to `NOT_STARTED`. -/
def revertFlagOne (fl : TransactionFlow) (id : String) :
    Except String TransactionFlow :=
  if id == ROOT_STEP then .ok fl
  else
    match getStep fl id with
    | none => .error "undefined step"
    | some stepDef =>
      let cur := stepDef.getStates
      if (cur.state == .DONE || cur.status == .PERMANENT_FAILURE)
          && !stepDef.definition.noCompensation then do
        let s := stepDef.beginCompensation
        let s ← s.changeState .NOT_STARTED
        .ok (updateStep fl id s)
      else .ok fl

/-- `flagStepsToRevert(flow)`. -/
def flagStepsToRevert (fl : TransactionFlow) : Except String TransactionFlow :=
  (fl.steps.map (fun p => p.1)).foldlM revertFlagOne fl

/-- The tail of `checkAllSteps` that runs when the pass has classified
every non-root step as completed: set the skip and failure flags and
finalize the flow state. -/
def finalizePass (flow : TransactionFlow) (r : PassResult) (total : Nat) :
    TransactionFlow :=
  if r.completed == total then
    let flow := if r.hasSkipped then { flow with hasSkippedSteps := true } else flow
    let flow :=
      if r.hasIgnoredFailure then { flow with hasFailedSteps := true } else flow
    if r.hasFailed then { flow with state := .FAILED }
    else
      { flow with state := if r.hasReverted then .REVERTED else .DONE }
  else flow

/-- The ordering `checkAllSteps` iterates for the current flow state. -/
def activeOrder (flow : TransactionFlow) : List String :=
  if flow.state == .COMPENSATING then getCompensationSteps flow
  else getInvokeSteps flow

/-- The value `checkAllSteps` returns, together with the flow it leaves
behind. -/
structure CheckResult where
  flow : TransactionFlow
  nextIds : List String
  total : Nat
  remaining : Nat
  completed : Nat
  deriving DecidableEq, Repr

/-- `checkAllSteps(transaction)`.  The recursive call the source makes
after moving `WAITING_TO_COMPENSATE` to `COMPENSATING` is unrolled once:
the inner call can never take that branch again because the state is then
`COMPENSATING` and the pass itself never writes the flow state. -/
def checkAllSteps (flow : TransactionFlow) : Except String CheckResult := do
  let ids := activeOrder flow
  let r ← runPass flow ids
  let total := ids.length - 1
  if flow.state == .WAITING_TO_COMPENSATE && r.nextIds.isEmpty && !r.hasWaiting then
    let fl2 ← flagStepsToRevert { flow with state := .COMPENSATING }
    let ids2 := activeOrder fl2
    let r2 ← runPass fl2 ids2
    let total2 := ids2.length - 1
    let fl3 := finalizePass fl2 r2 total2
    .ok ⟨fl3, r2.nextIds, total2, total2 - r2.completed, r2.completed⟩
  else
    let fl1 := finalizePass flow r total
    .ok ⟨fl1, r.nextIds, total, total - r.completed, r.completed⟩

/-- One recorded transaction error (`DistributedTransaction.addError`); the
error object itself carries no information the claims need. -/
structure ErrorEntry where
  action : String
  handlerType : TransactionHandlerType
  deriving DecidableEq, Repr

/-- A `DistributedTransaction`: the flow, the error list and the initial
payload handed to `beginTransaction`. -/
structure Tx where
  flow : TransactionFlow
  errors : List ErrorEntry := []
  payloadInput : Option Nat := none
  deriving DecidableEq, Repr

/-- `DistributedTransaction.hasFinished()`. -/
def hasFinished (flow : TransactionFlow) : Bool :=
  flow.state == .DONE || flow.state == .REVERTED || flow.state == .FAILED

/-- `setStepSuccess(step, response)` applied to the step stored under `id`. -/
def setStepSuccess (fl : TransactionFlow) (id : String) (response : Nat) :
    Except String TransactionFlow :=
  match getStep fl id with
  | none => .error "undefined step"
  | some step => do
    let step :=
      if step.forwardResponse then { step with response := some response } else step
    let step ← step.changeStatus .OK
    let step ←
      if step.isCompensating then step.changeState .REVERTED
      else step.changeState .DONE
    .ok (updateStep fl id step)

/-- The `continueOnPermanentFailure` loop of `setStepFailure`: set each
listed child to `SKIPPED`. -/
def skipChildren (fl : TransactionFlow) :
    List String → Except String TransactionFlow
  | [] => .ok fl
  | childId :: rest =>
    match getStep fl childId with
    | none => .error "undefined step"
    | some child => do
      let child ← child.changeState .SKIPPED
      skipChildren (updateStep fl childId child) rest

/-- `setStepFailure(transaction, step, error, maxRetries)` applied to the
step stored under `id`. -/
def setStepFailure (tx : Tx) (id : String) (maxRetries : Nat) :
    Except String Tx :=
  match getStep tx.flow id with
  | none => .error "undefined step"
  | some step => do
    let step := { step with failures := step.failures + 1 }
    let step ← step.changeStatus .TEMPORARY_FAILURE
    if step.failures > maxRetries then do
      let step ← step.changeState .FAILED
      let step ← step.changeStatus .PERMANENT_FAILURE
      let errs := tx.errors ++
        [⟨step.definition.action.getD "",
          if step.isCompensating then .COMPENSATE else .INVOKE⟩]
      let fl := updateStep tx.flow id step
      if !step.isCompensating then
        if step.definition.continueOnPermanentFailure then do
          let fl ← skipChildren fl step.next
          .ok { tx with flow := fl, errors := errs }
        else
          let fl2 : TransactionFlow := { fl with state := .WAITING_TO_COMPENSATE }
          .ok { tx with flow := fl2, errors := errs }
      else
        .ok { tx with flow := fl, errors := errs }
    else
      .ok { tx with flow := updateStep tx.flow id step }

/-- The `TransactionMetadata` assembled by `executeNext`. -/
structure TransactionMetadata where
  producer : String
  reply_to_topic : String
  idempotency_key : String
  action : String
  action_type : TransactionHandlerType
  attempt : Nat
  timestamp : Nat
  deriving DecidableEq, Repr

/-- The payload data: the transaction input plus the parent response
injected when the parent forwards its response. -/
structure PayloadData where
  input : Option Nat
  response : Option Nat
  deriving DecidableEq, Repr

/-- The `TransactionPayload` handed to the handler. -/
structure TransactionPayload where
  metadata : TransactionMetadata
  data : PayloadData
  deriving DecidableEq, Repr

/-- The phase a step is dispatched under. -/
def handlerTypeOf (step : TransactionStep) : TransactionHandlerType :=
  if step.isCompensating then .COMPENSATE else .INVOKE

/-- The dispatch half of one `executeNext` iteration for the step stored
under `id`: stamp the attempt, move the state and status, and assemble the
payload.  `Date.now()` is the explicit `now` argument. -/
def dispatchStep (fl : TransactionFlow) (payloadInput : Option Nat) (now : Nat)
    (id : String) : Except String (TransactionFlow × TransactionPayload) :=
  match getStep fl id with
  | none => .error "undefined step"
  | some step => do
    let curState := step.getStates
    let ty := handlerTypeOf step
    let step := { step with lastAttempt := some now, attempts := step.attempts + 1 }
    let step ←
      if curState.state == .NOT_STARTED then
        if step.isCompensating then step.changeState .COMPENSATING
        else if fl.state == .INVOKING then step.changeState .INVOKING
        else pure step
      else pure step
    let step ← step.changeStatus .WAITING
    let fl := updateStep fl id step
    match getPreviousStep fl step with
    | none => .error "undefined parent"
    | some parent =>
      let dataResp := if parent.forwardResponse then parent.response else none
      let payload : TransactionPayload :=
        { metadata :=
            { producer := fl.transactionModelId
              reply_to_topic := getKeyName ["trans", fl.transactionModelId]
              idempotency_key :=
                getKeyName [fl.transactionId, step.definition.action.getD "", ty.str]
              action := step.definition.action.getD "undefined"
              action_type := ty
              attempt := step.attempts
              timestamp := now }
          data := { input := payloadInput, response := dataResp } }
      .ok (fl, payload)

/-- A step handler: resolves with a value or rejects.  The source handler
also receives the payload; the claims only need its behaviour as a
function of action and phase. -/
abbrev Handler : Type := String → TransactionHandlerType → Except String Nat

/-- The settlement half of one `executeNext` iteration: apply
`setStepSuccess` on resolve and `setStepFailure` (with the definition
retry bound, defaulting to `DEFAULT_RETRIES`) on reject. -/
def applyOutcome (h : Handler) (tx : Tx) (id : String) : Except String Tx :=
  match getStep tx.flow id with
  | none => .error "undefined step"
  | some step =>
    match h (step.definition.action.getD "undefined") (handlerTypeOf step) with
    | .ok resp => do
      let fl ← setStepSuccess tx.flow id resp
      .ok { tx with flow := fl }
    | .error _ =>
      setStepFailure tx id (step.definition.maxRetries.getD DEFAULT_RETRIES)

/-- The invocation log: one entry per handler call, in call order. -/
abbrev LogEntry : Type := String × TransactionHandlerType

/-- `executeNext(transaction)`, with fuel bounding the recursion depth.
All steps of a round are dispatched before any outcome is applied, which
matches the promise scheduling of the source: the loop performs every
synchronous dispatch mutation first and the settlement callbacks run
afterwards in creation order. -/
def executeNext (h : Handler) (now : Nat) :
    Nat → Tx → Except String (Tx × List LogEntry)
  | 0, _ => .error "out of fuel"
  | fuel + 1, tx => do
    if hasFinished tx.flow then .ok (tx, [])
    else do
      let chk ← checkAllSteps tx.flow
      let tx1 : Tx := { tx with flow := chk.flow }
      let dispatched ← chk.nextIds.foldlM
        (fun (acc : TransactionFlow × List LogEntry) id => do
          let (fl2, payload) ← dispatchStep acc.1 tx1.payloadInput now id
          .ok (fl2, acc.2 ++ [(payload.metadata.action, payload.metadata.action_type)]))
        (tx1.flow, [])
      let tx2 : Tx := { tx1 with flow := dispatched.1 }
      let tx3 ← chk.nextIds.foldlM (applyOutcome h) tx2
      if chk.nextIds.length > 0 then do
        let (tx4, log2) ← executeNext h now fuel tx3
        .ok (tx4, dispatched.2 ++ log2)
      else
        .ok (tx3, dispatched.2)

/-- `TransactionOrchestrator.resume(transaction)`. -/
def resume (orchId : String) (h : Handler) (now fuel : Nat) (tx : Tx) :
    Except String (Tx × List LogEntry) :=
  if tx.flow.transactionModelId != orchId then .error "wrong transaction model"
  else if hasFinished tx.flow then .ok (tx, [])
  else
    let tx :=
      if tx.flow.state == .NOT_STARTED then
        { tx with flow := { tx.flow with state := .INVOKING } }
      else tx
    executeNext h now fuel tx

/-- The nested `TransactionStepsDefinition` input of the topology builder:
an optional action name, the policy fields, and the `next` children (a
single definition and a list of definitions collapse to a list). -/
inductive StepsDef where
  | node (action : Option String) (maxRetries : Option Nat)
      (continueOnPermanentFailure noWait noCompensation : Bool)
      (forwardResponse : Option Bool) (next : List StepsDef)

/-- The action name of a definition node. -/
def StepsDef.action : StepsDef → Option String
  | .node a _ _ _ _ _ _ => a

/-- The children of a definition node. -/
def StepsDef.children : StepsDef → List StepsDef
  | .node _ _ _ _ _ _ next => next

/-- The `definitionCopy` of `buildSteps`: the node without its `next`. -/
def StepsDef.policy : StepsDef → StepDefinition
  | .node a mr cpf nw nc fr _ =>
    { action := a, maxRetries := mr, continueOnPermanentFailure := cpf,
      noWait := nw, noCompensation := nc, forwardResponse := fr }

/-- The root placeholder `buildSteps` seeds the table with; the source
casts a bare `(id, next)` record, whose unread fields surface here as
inert defaults (`forwardResponse` is absent, hence falsy, and the sort
treats the absent depth as 0). -/
def rootStep : TransactionStep :=
  { id := ROOT_STEP
    definition := { action := none }
    invoke := ⟨.NOT_STARTED, .IDLE⟩
    compensate := ⟨.DORMANT, .IDLE⟩
    next := []
    depth := 0
    forwardResponse := false }

/-- The fresh step record `buildSteps` creates when no existing step is
found for an id. -/
def freshStep (id : String) (depth : Nat) (defn : StepDefinition) :
    TransactionStep :=
  { id := id
    depth := depth
    definition := defn
    forwardResponse := defn.forwardResponse.getD true
    invoke := ⟨.NOT_STARTED, .IDLE⟩
    compensate := ⟨.DORMANT, .IDLE⟩
    next := [] }

/-- `states[id] = v` on a JavaScript object: replace in place when the key
exists, append otherwise. -/
def setAssoc (l : List (String × TransactionStep)) (id : String)
    (v : TransactionStep) : List (String × TransactionStep) :=
  if l.any (fun p => p.1 == id) then
    l.map (fun p => if p.1 == id then (p.1, v) else p)
  else
    l ++ [(id, v)]

/-- `states[parent].next?.push(id)`: append the child id to the parent
entry, failing like the source when the parent entry is missing. -/
def pushNext (l : List (String × TransactionStep)) (parentId id : String) :
    Except String (List (String × TransactionStep)) :=
  if l.any (fun p => p.1 == parentId) then
    .ok (l.map (fun p =>
      if p.1 == parentId then (p.1, { p.2 with next := p.2.next ++ [id] }) else p))
  else
    .error "undefined parent entry"

/-- The accumulated table and duplicate-detection set of `buildSteps`. -/
structure BuildState where
  states : List (String × TransactionStep)
  actionNames : List String
  deriving Repr

/-- The breadth-first queue loop of `buildSteps`.  Each queue entry pairs
a definition object with the id path of its enclosing level.  Fuel bounds
the iteration count (one unit per definition node). -/
def buildLoop (existing : List (String × TransactionStep)) :
    Nat → List (StepsDef × List String) → BuildState →
    Except String BuildState
  | _, [], st => .ok st
  | 0, _ :: _, _ => .error "out of fuel"
  | fuel + 1, (d, level) :: queue, st =>
    match d.action with
    | none =>
      buildLoop existing fuel
        (queue ++ d.children.map (fun c => (c, level))) st
    | some a =>
      if a ∈ st.actionNames then .error "action is already defined"
      else
        let level2 := level ++ [a]
        let id := String.intercalate "." level2
        let parentId := String.intercalate "." level
        match pushNext st.states parentId id with
        | .error e => .error e
        | .ok states1 =>
          let stepVal :=
            match (existing.find? (fun p => p.1 == id)).map (fun p => p.2) with
            | some ex => ex
            | none => freshStep id (level2.length - 1) d.policy
          let st2 : BuildState :=
            { states := setAssoc states1 id stepVal
              actionNames := st.actionNames ++ [a] }
          buildLoop existing fuel
            (queue ++ d.children.map (fun c => (c, level2))) st2

/-- `buildSteps(flow, existingSteps?)`: seed the table with the root entry
and run the queue over the definition. -/
def buildSteps (defn : StepsDef) (existing : List (String × TransactionStep))
    (fuel : Nat) : Except String (List (String × TransactionStep)) :=
  (buildLoop existing fuel [(defn, [ROOT_STEP])]
      ⟨[(ROOT_STEP, rootStep)], []⟩).map (fun st => st.states)

/-- `createTransactionFlow(transactionId)` on an orchestrator with id
`orchId` and definition `defn`. -/
def createTransactionFlow (orchId : String) (defn : StepsDef)
    (transactionId : String) (fuel : Nat) : Except String TransactionFlow := do
  let steps ← buildSteps defn [] fuel
  .ok { transactionModelId := orchId
        transactionId := transactionId
        state := .NOT_STARTED
        steps := steps
        hasFailedSteps := false
        hasSkippedSteps := false }

/-- Locate the step whose definition carries the given action name. -/
def findStepByAction (fl : TransactionFlow) (action : String) :
    Option (String × TransactionStep) :=
  fl.steps.find? (fun p => p.2.definition.action == some action)

/-- Modelled from the spec: `TransactionOrchestrator.registerStepSuccess`
is called by `LocalWorkflow.registerStepSuccess` but its body is not part
of the sources.  Following section 4.6 of the spec: the idempotency key
`transactionId:action:phase` selects the transaction and the step by
action; when the step is `WAITING` in the matching phase the success rules
are applied and execution continues; a duplicate call after the step has
already transitioned is a no-op that returns the current transaction. -/
def registerStepSuccess (h : Handler) (now fuel : Nat) (tx : Tx)
    (idempotencyKey : String) (response : Nat) :
    Except String (Tx × List LogEntry) :=
  match splitOnChar idempotencyKey ':' with
  | [txId, action, phaseStr] =>
    if txId != tx.flow.transactionId then .error "transaction not found"
    else
      match findStepByAction tx.flow action with
      | none => .error "step not found"
      | some (id, step) =>
        let phase : TransactionHandlerType :=
          if phaseStr == "compensate" then .COMPENSATE else .INVOKE
        if step.getStates.status == .WAITING && handlerTypeOf step == phase then do
          let fl ← setStepSuccess tx.flow id response
          executeNext h now fuel { tx with flow := fl }
        else
          .ok (tx, [])
  | _ => .error "invalid idempotency key"

/-! ## Helper lemmas about steps and the step table -/

namespace TransactionStep

@[simp] theorem setStates_id (s : TransactionStep) (p : StepStates) :
    (s.setStates p).id = s.id := by
  unfold setStates
  split <;> rfl

@[simp] theorem setStates_attempts (s : TransactionStep) (p : StepStates) :
    (s.setStates p).attempts = s.attempts := by
  unfold setStates
  split <;> rfl

@[simp] theorem setStates_failures (s : TransactionStep) (p : StepStates) :
    (s.setStates p).failures = s.failures := by
  unfold setStates
  split <;> rfl

@[simp] theorem setStates_definition (s : TransactionStep) (p : StepStates) :
    (s.setStates p).definition = s.definition := by
  unfold setStates
  split <;> rfl

@[simp] theorem setStates_next (s : TransactionStep) (p : StepStates) :
    (s.setStates p).next = s.next := by
  unfold setStates
  split <;> rfl

@[simp] theorem setStates_stepFailed (s : TransactionStep) (p : StepStates) :
    (s.setStates p).stepFailed = s.stepFailed := by
  unfold setStates
  split <;> rfl

@[simp] theorem setStates_lastAttempt (s : TransactionStep) (p : StepStates) :
    (s.setStates p).lastAttempt = s.lastAttempt := by
  unfold setStates
  split <;> rfl

@[simp] theorem getStates_setStates (s : TransactionStep) (p : StepStates) :
    (s.setStates p).getStates = p := by
  unfold setStates getStates
  by_cases hb : s.stepFailed <;> simp [hb]

@[simp] theorem isCompensating_setStates (s : TransactionStep) (p : StepStates) :
    (s.setStates p).isCompensating = s.isCompensating := by
  unfold setStates isCompensating
  split <;> rfl

theorem changeStatus_ok (s : TransactionStep) (v : TransactionStepStatus)
    (h : s.getStates.status = v ∨ v = .WAITING ∨
      v ∈ allowedStatusTargets s.getStates.status) :
    s.changeStatus v = .ok (s.setStates { s.getStates with status := v }) := by
  unfold changeStatus
  rw [if_pos h]

theorem changeState_ok (s : TransactionStep) (v : TransactionState)
    (h : s.getStates.state = v ∨ v ∈ allowedStateTargets s.getStates.state) :
    s.changeState v = .ok (s.setStates { s.getStates with state := v }) := by
  unfold changeState
  rw [if_pos h]

end TransactionStep

theorem find_map_update_other (l : List (String × TransactionStep))
    (id pid : String) (s : TransactionStep) (hne : pid ≠ id) :
    (l.map (fun p => if p.1 == id then (p.1, s) else p)).find?
        (fun p => p.1 == pid) =
      l.find? (fun p => p.1 == pid) := by
  induction l with
  | nil => rfl
  | cons p rest ih =>
    simp only [List.map_cons]
    by_cases hp : p.1 = id
    · have hc : (if p.1 == id then (p.1, s) else p) = (p.1, s) := by simp [hp]
      have h3 : (p.1 == pid) = false := by
        simp only [beq_eq_false_iff_ne, hp]
        exact fun hc2 => hne hc2.symm
      rw [hc]
      simp only [List.find?_cons, h3]
      exact ih
    · have hc : (if p.1 == id then (p.1, s) else p) = p := by simp [hp]
      rw [hc]
      by_cases h2 : p.1 = pid
      · have hpos : (p.1 == pid) = true := by simp [h2]
        simp only [List.find?_cons, hpos]
      · have hneg : (p.1 == pid) = false := by simp [beq_eq_false_iff_ne, h2]
        simp only [List.find?_cons, hneg]
        exact ih

theorem find_map_update_self (l : List (String × TransactionStep))
    (id : String) (s t : TransactionStep)
    (hs : (l.find? (fun p => p.1 == id)).map (fun p => p.2) = some t) :
    (l.map (fun p => if p.1 == id then (p.1, s) else p)).find?
        (fun p => p.1 == id) =
      some (id, s) := by
  induction l with
  | nil => simp at hs
  | cons p rest ih =>
    simp only [List.map_cons]
    by_cases hp : p.1 = id
    · have hc : (if p.1 == id then (p.1, s) else p) = (p.1, s) := by simp [hp]
      have hpos : (p.1 == id) = true := by simp [hp]
      rw [hc]
      simp only [List.find?_cons, hpos, hp, beq_self_eq_true]
    · have hc : (if p.1 == id then (p.1, s) else p) = p := by simp [hp]
      have hneg : (p.1 == id) = false := by simp [beq_eq_false_iff_ne, hp]
      rw [hc]
      simp only [List.find?_cons, hneg] at hs ⊢
      exact ih hs

theorem getStep_updateStep_other (fl : TransactionFlow) (id pid : String)
    (s : TransactionStep) (hne : pid ≠ id) :
    getStep (updateStep fl id s) pid = getStep fl pid := by
  unfold getStep updateStep
  simp only []
  rw [find_map_update_other fl.steps id pid s hne]

theorem getStep_updateStep_self (fl : TransactionFlow) (id : String)
    (s t : TransactionStep) (hs : getStep fl id = some t) :
    getStep (updateStep fl id s) id = some s := by
  unfold getStep updateStep at *
  simp only []
  rw [find_map_update_self fl.steps id s t hs]
  rfl

theorem updateStep_state (fl : TransactionFlow) (id : String)
    (s : TransactionStep) : (updateStep fl id s).state = fl.state := rfl

/-! ## Claim C8: rejected state transitions -/

/-- A step whose active invoke state is `FAILED`, used to exercise
`changeState` at a target outside the allowed-transition table. -/
def c8Step : TransactionStep :=
  { id := "_root.X"
    definition := { action := some "X" }
    invoke := ⟨.FAILED, .PERMANENT_FAILURE⟩
    compensate := ⟨.DORMANT, .IDLE⟩
    next := []
    depth := 1 }

/-- Claim C8 counterexample: the claim states that `changeState` throws for
every target state not in the allowed-transition table for the current
active state.  `FAILED` has no entry in the table, so `FAILED` is not an
allowed target of `FAILED`; yet `changeState` also accepts any target
equal to the current state, so moving a `FAILED` step to `FAILED` succeeds
and returns the step unchanged instead of throwing. -/
theorem C8_counterexample :
    c8Step.changeState .FAILED = Except.ok c8Step ∧
      TransactionState.FAILED ∉
        TransactionStep.allowedStateTargets c8Step.getStates.state := by
  constructor
  · rfl
  · decide

/-- Claim C8 amended: for every target state that is neither in the
allowed-transition table for the current active state nor equal to the
current active state, `changeState` throws; in this pure embedding the
error result carries no updated step, which is how the source leaves the
step unmodified (the only mutation sits after the guard). -/
theorem C8_amended (s : TransactionStep) (toState : TransactionState)
    (h1 : toState ∉ TransactionStep.allowedStateTargets s.getStates.state)
    (h2 : s.getStates.state ≠ toState) :
    s.changeState toState = Except.error "updating state is not allowed" := by
  unfold TransactionStep.changeState
  rw [if_neg]
  intro hor
  rcases hor with heq | hmem
  · exact h2 heq
  · exact h1 hmem

/-- Witness for C8 amended: a `DONE` step may not move to `SKIPPED`. -/
theorem C8_amended_witness :
    TransactionState.SKIPPED ∉
        TransactionStep.allowedStateTargets
          ({ c8Step with invoke := ⟨.DONE, .OK⟩ } :
            TransactionStep).getStates.state ∧
      ({ c8Step with invoke := ⟨.DONE, .OK⟩ } :
          TransactionStep).changeState .SKIPPED =
        Except.error "updating state is not allowed" :=
  ⟨by decide, C8_amended _ .SKIPPED (by decide) (by decide)⟩

/-! ## Claim C10: resume on a finished transaction -/

/-- Claim C10: when a transaction has reached a terminal flow state
(`DONE`, `REVERTED` or `FAILED`), `resume` returns at its finished-guard:
the transaction comes back unchanged, with an empty invocation log, so no
handler runs and no step or flow field is modified. -/
theorem C10_resume_finished_noop (orchId : String) (h : Handler)
    (now fuel : Nat) (tx : Tx)
    (hmodel : tx.flow.transactionModelId = orchId)
    (hfin : hasFinished tx.flow = true) :
    resume orchId h now fuel tx = .ok (tx, []) := by
  unfold resume
  rw [hmodel]
  simp [hfin]

/-- Witness for C10: a single-step flow already in the `REVERTED` state. -/
def c10Flow : TransactionFlow :=
  { transactionModelId := "model"
    transactionId := "tx1"
    state := .REVERTED
    steps := [(ROOT_STEP, rootStep)] }

theorem C10_resume_finished_noop_witness :
    ({ flow := c10Flow } : Tx).flow.transactionModelId = "model" ∧
      hasFinished ({ flow := c10Flow } : Tx).flow = true ∧
      resume "model" (fun _ _ => .ok 0) 0 5 { flow := c10Flow } =
        .ok ({ flow := c10Flow }, []) :=
  ⟨rfl, by decide,
    C10_resume_finished_noop "model" (fun _ _ => .ok 0) 0 5 { flow := c10Flow }
      rfl (by decide)⟩

/-! ## Claim C9: the dispatched payload metadata -/

theorem getKeyName_pair (x y : String) :
    getKeyName [x, y] = x ++ SEPARATOR ++ y := by
  simp [getKeyName, SEPARATOR, String.intercalate, String.intercalate.go]

theorem getKeyName_triple (x y z : String) :
    getKeyName [x, y, z] = x ++ SEPARATOR ++ y ++ SEPARATOR ++ z := by
  simp [getKeyName, SEPARATOR, String.intercalate, String.intercalate.go,
    String.append_assoc]

@[simp] theorem ok_bind {α β : Type} (a : α) (f : α → Except String β) :
    (Except.ok a : Except String α) >>= f = f a := rfl

@[simp] theorem pure_eq_ok {α : Type} (a : α) :
    (pure a : Except String α) = .ok a := rfl

theorem getPreviousStep_update (fl : TransactionFlow) (id : String)
    (s : TransactionStep) (hpne : getParentId s.id ≠ id) :
    getPreviousStep (updateStep fl id s) s = getStep fl (getParentId s.id) := by
  unfold getPreviousStep
  exact getStep_updateStep_other fl id _ s hpne

/-- Claim C9: every step dispatched by `executeNext` carries a payload
whose `idempotency_key` is the transaction id, the action name and the
phase joined by the separator `:` (built by `getKeyName`), whose
`reply_to_topic` is `trans:` followed by the model id, and whose
`attempt` equals the attempts counter after the increment performed for
this dispatch. -/
theorem C9_dispatch_payload (fl : TransactionFlow) (inp : Option Nat)
    (now : Nat) (id a : String) (step parent : TransactionStep)
    (hs : getStep fl id = some step)
    (ha : step.definition.action = some a)
    (hpne : getParentId step.id ≠ id)
    (hpar : getStep fl (getParentId step.id) = some parent) :
    ∃ fl2 payload step2,
      dispatchStep fl inp now id = .ok (fl2, payload) ∧
      payload.metadata.idempotency_key =
        fl.transactionId ++ ":" ++ a ++ ":" ++ (handlerTypeOf step).str ∧
      payload.metadata.reply_to_topic = "trans" ++ ":" ++ fl.transactionModelId ∧
      payload.metadata.attempt = step.attempts + 1 ∧
      getStep fl2 id = some step2 ∧
      step2.attempts = step.attempts + 1 := by
  unfold dispatchStep
  rw [hs]
  by_cases hns : (step.getStates.state == TransactionState.NOT_STARTED) = true
  · by_cases hcomp : step.stepFailed = true
    · simp only [hns, hcomp, if_true, TransactionStep.isCompensating]
      rw [TransactionStep.changeState_ok]
      · simp only [ok_bind]
        rw [TransactionStep.changeStatus_ok]
        · simp only [ok_bind]
          refine ⟨?fla, ?paya, ?sta, ?hAa, ?hBa, ?hCa, ?hDa, ?hEa, ?hFa⟩
          case hAa =>
            rw [getPreviousStep_update]
            · simp only [TransactionStep.setStates_id]
              rw [hpar]
              exact rfl
            · simp only [TransactionStep.setStates_id]
              exact hpne
          case hBa => simp [updateStep, ha, handlerTypeOf, TransactionStep.isCompensating, hcomp, getKeyName_triple, SEPARATOR]
          case hCa => simp [updateStep, getKeyName_pair, SEPARATOR]
          case hDa => simp [updateStep]
          case hEa => exact getStep_updateStep_self fl id _ step hs
          case hFa => simp
        · right
          left
          rfl
      · right
        have hx : step.compensate.state = TransactionState.NOT_STARTED := by
          have h0 := beq_iff_eq.mp hns
          unfold TransactionStep.getStates at h0
          rw [hcomp] at h0
          simpa using h0
        simp only [TransactionStep.getStates]
        simp only [if_true]
        rw [hx]
        decide
    · have hcf : step.stepFailed = false := by
        revert hcomp
        cases step.stepFailed <;> simp
      simp only [hns, hcf, if_true, Bool.false_eq_true, if_false,
        TransactionStep.isCompensating]
      by_cases hfi : (fl.state == TransactionState.INVOKING) = true
      · simp only [hfi, if_true]
        rw [TransactionStep.changeState_ok]
        · simp only [ok_bind]
          rw [TransactionStep.changeStatus_ok]
          · simp only [ok_bind]
            refine ⟨?flb, ?payb, ?stb, ?hAb, ?hBb, ?hCb, ?hDb, ?hEb, ?hFb⟩
            case hAb =>
              rw [getPreviousStep_update]
              · simp only [TransactionStep.setStates_id]
                rw [hpar]
                exact rfl
              · simp only [TransactionStep.setStates_id]
                exact hpne
            case hBb => simp [updateStep, ha, handlerTypeOf, TransactionStep.isCompensating, hcf, getKeyName_triple, SEPARATOR]
            case hCb => simp [updateStep, getKeyName_pair, SEPARATOR]
            case hDb => simp [updateStep]
            case hEb => exact getStep_updateStep_self fl id _ step hs
            case hFb => simp
          · right
            left
            rfl
        · right
          have hx : step.invoke.state = TransactionState.NOT_STARTED := by
            have h0 := beq_iff_eq.mp hns
            unfold TransactionStep.getStates at h0
            rw [hcf] at h0
            simpa using h0
          simp only [TransactionStep.getStates]
          simp only [hcf, Bool.false_eq_true, if_false]
          rw [hx]
          decide
      · have hfif : (fl.state == TransactionState.INVOKING) = false := by
          revert hfi
          cases (fl.state == TransactionState.INVOKING) <;> simp
        simp only [hfif, Bool.false_eq_true, if_false, pure_eq_ok, ok_bind]
        rw [TransactionStep.changeStatus_ok]
        · simp only [ok_bind]
          refine ⟨?flc, ?payc, ?stc, ?hAc, ?hBc, ?hCc, ?hDc, ?hEc, ?hFc⟩
          case hAc =>
            rw [getPreviousStep_update]
            · simp only [TransactionStep.setStates_id]
              rw [hpar]
              exact rfl
            · simp only [TransactionStep.setStates_id]
              exact hpne
          case hBc => simp [updateStep, ha, handlerTypeOf, TransactionStep.isCompensating, hcf, getKeyName_triple, SEPARATOR]
          case hCc => simp [updateStep, getKeyName_pair, SEPARATOR]
          case hDc => simp [updateStep]
          case hEc => exact getStep_updateStep_self fl id _ step hs
          case hFc => simp
        · right
          left
          rfl
  · have hnsf : (step.getStates.state == TransactionState.NOT_STARTED) = false := by
      revert hns
      cases (step.getStates.state == TransactionState.NOT_STARTED) <;> simp
    simp only [hnsf, Bool.false_eq_true, if_false, pure_eq_ok, ok_bind]
    rw [TransactionStep.changeStatus_ok]
    · simp only [ok_bind]
      refine ⟨?fld, ?payd, ?std, ?hAd, ?hBd, ?hCd, ?hDd, ?hEd, ?hFd⟩
      case hAd =>
        rw [getPreviousStep_update]
        · simp only [TransactionStep.setStates_id]
          rw [hpar]
          exact rfl
        · simp only [TransactionStep.setStates_id]
          exact hpne
      case hBd => simp [updateStep, ha, handlerTypeOf, TransactionStep.isCompensating, getKeyName_triple, SEPARATOR]
      case hCd => simp [updateStep, getKeyName_pair, SEPARATOR]
      case hDd => simp [updateStep]
      case hEd => exact getStep_updateStep_self fl id _ step hs
      case hFd => simp
    · right
      left
      rfl


/-! ## Claim C4: the retry-and-compensate scenario -/

/-- The flow `A → B` of spec scenario 3, with no explicit retry policy so
that `DEFAULT_RETRIES` applies. -/
def c4Def : StepsDef :=
  .node (some "A") none false false false none
    [.node (some "B") none false false false none []]

/-- A handler whose `B` invoke always rejects and whose other calls all
resolve. -/
def c4Handler : Handler := fun a ty =>
  if a == "B" && ty == .INVOKE then .error "boom" else .ok 7

/-- Building the transaction and resuming it to completion. -/
def c4Run : Except String (Tx × List LogEntry) := do
  let fl ← createTransactionFlow "model" c4Def "tx1" 10
  resume "model" c4Handler 0 20 { flow := fl }

/-- The number of log entries for one action and phase. -/
def countCalls (log : List LogEntry) (a : String)
    (ty : TransactionHandlerType) : Nat :=
  (log.filter (fun e => e.1 == a && e.2 == ty)).length

/-- Claim C4: on the flow `A → B` where `A` always succeeds and `B` always
throws, with the default retry policy, resuming to completion invokes the
invoke handler of `A` once and of `B` four times, the compensate handler
of each exactly once, and leaves the flow `REVERTED`. -/
theorem C4_retry_and_compensate :
    c4Run.map (fun p =>
        (p.1.flow.state,
         countCalls p.2 "A" .INVOKE,
         countCalls p.2 "B" .INVOKE,
         countCalls p.2 "A" .COMPENSATE,
         countCalls p.2 "B" .COMPENSATE)) =
      .ok (.REVERTED, 1, 4, 1, 1) := by
  rfl


/-! ## Claims C1 and C2: permanent failure handling -/

/-- Running the `continueOnPermanentFailure` child loop over well formed
children succeeds, leaves the flow state alone, sets every listed child to
`SKIPPED` and does not touch any other entry. -/
theorem skipChildren_ok (l : List String) (fl : TransactionFlow)
    (hwf : ∀ c ∈ l, ∃ cs, getStep fl c = some cs ∧ cs.stepFailed = false ∧
      (cs.invoke.state = .NOT_STARTED ∨ cs.invoke.state = .SKIPPED)) :
    ∃ fl2, skipChildren fl l = .ok fl2 ∧
      fl2.state = fl.state ∧
      (∀ c ∈ l, ∃ cs, getStep fl2 c = some cs ∧ cs.stepFailed = false ∧
        cs.invoke.state = .SKIPPED) ∧
      (∀ x, x ∉ l → getStep fl2 x = getStep fl x) := by
  induction l generalizing fl with
  | nil =>
    refine ⟨fl, rfl, rfl, ?_, ?_⟩
    · intro c hc
      simp at hc
    · intro x hx
      rfl
  | cons c rest ih =>
    obtain ⟨cs, hcs, hcf, hst⟩ := hwf c (List.mem_cons_self c rest)
    have hchg : cs.changeState .SKIPPED =
        .ok (cs.setStates { cs.getStates with state := .SKIPPED }) := by
      apply TransactionStep.changeState_ok
      unfold TransactionStep.getStates
      rw [hcf]
      simp only [Bool.false_eq_true, if_false]
      rcases hst with h | h
      · right
        rw [h]
        decide
      · left
        exact h
    set cs2 : TransactionStep := cs.setStates { cs.getStates with state := .SKIPPED } with hcs2
    have hcs2f : cs2.stepFailed = false := by
      rw [hcs2, TransactionStep.setStates_stepFailed]
      exact hcf
    have hcs2inv : cs2.invoke.state = .SKIPPED := by
      have h1 : cs2.getStates = { cs.getStates with state := .SKIPPED } :=
        TransactionStep.getStates_setStates cs _
      unfold TransactionStep.getStates at h1
      rw [hcs2f] at h1
      simp only [Bool.false_eq_true, if_false] at h1
      rw [h1]
    have hwf1 : ∀ d ∈ rest, ∃ ds, getStep (updateStep fl c cs2) d = some ds ∧
        ds.stepFailed = false ∧
        (ds.invoke.state = .NOT_STARTED ∨ ds.invoke.state = .SKIPPED) := by
      intro d hd
      by_cases hdc : d = c
      · subst hdc
        exact ⟨cs2, getStep_updateStep_self fl d cs2 cs hcs, hcs2f, Or.inr hcs2inv⟩
      · obtain ⟨ds, hds, hdsf, hdss⟩ := hwf d (List.mem_cons_of_mem c hd)
        exact ⟨ds, by rw [getStep_updateStep_other fl c d cs2 hdc]; exact hds,
          hdsf, hdss⟩
    obtain ⟨fl2, hrun, hstate, hall, hother⟩ := ih (updateStep fl c cs2) hwf1
    refine ⟨fl2, ?_, ?_, ?_, ?_⟩
    · unfold skipChildren
      rw [hcs]
      simp only [hchg, ok_bind]
      exact hrun
    · rw [hstate]
      rfl
    · intro d hd
      rcases List.mem_cons.mp hd with hdc | hdr
      · subst hdc
        by_cases hdrest : d ∈ rest
        · exact hall d hdrest
        · refine ⟨cs2, ?_, hcs2f, hcs2inv⟩
          rw [hother d hdrest]
          exact getStep_updateStep_self fl d cs2 cs hcs
      · exact hall d hdr
    · intro x hx
      have hx1 : x ∉ rest := fun hc => hx (List.mem_cons_of_mem c hc)
      have hx2 : x ≠ c := fun hc => hx (hc ▸ List.mem_cons_self c rest)
      rw [hother x hx1, getStep_updateStep_other fl c x cs2 hx2]

/-- Claim C1 amended: when an invoke-phase failure of a step becomes
permanent while the flow is `INVOKING` and the definition has
`continueOnPermanentFailure` set, only the DIRECT children listed in
`step.next` have their state set to `SKIPPED`; the flow state stays
`INVOKING` rather than moving to `WAITING_TO_COMPENSATE`.  Deeper
descendants are not touched (see the counterexample). -/
theorem C1_amended (tx : Tx) (id : String) (step : TransactionStep)
    (maxRetries : Nat)
    (hs : getStep tx.flow id = some step)
    (hsf : step.stepFailed = false)
    (hstate : step.invoke.state = .INVOKING)
    (hstatus : step.invoke.status = .WAITING)
    (hmax : step.failures + 1 > maxRetries)
    (hcopf : step.definition.continueOnPermanentFailure = true)
    (hflow : tx.flow.state = .INVOKING)
    (hnext : ∀ c ∈ step.next, c ≠ id ∧ ∃ cs, getStep tx.flow c = some cs ∧
      cs.stepFailed = false ∧
      (cs.invoke.state = .NOT_STARTED ∨ cs.invoke.state = .SKIPPED)) :
    ∃ tx2, setStepFailure tx id maxRetries = .ok tx2 ∧
      tx2.flow.state = .INVOKING ∧
      (∀ c ∈ step.next, ∃ cs, getStep tx2.flow c = some cs ∧
        cs.stepFailed = false ∧ cs.invoke.state = .SKIPPED) := by
  have hskip : ∀ (s : TransactionStep),
      ∃ fl2, skipChildren (updateStep tx.flow id s) step.next = .ok fl2 ∧
        fl2.state = tx.flow.state ∧
        (∀ c ∈ step.next, ∃ cs, getStep fl2 c = some cs ∧
          cs.stepFailed = false ∧ cs.invoke.state = .SKIPPED) := by
    intro s
    have hwf : ∀ c ∈ step.next, ∃ cs,
        getStep (updateStep tx.flow id s) c = some cs ∧
        cs.stepFailed = false ∧
        (cs.invoke.state = .NOT_STARTED ∨ cs.invoke.state = .SKIPPED) := by
      intro c hc
      obtain ⟨hcne, cs, hcs, hcf, hcss⟩ := hnext c hc
      refine ⟨cs, ?_, hcf, hcss⟩
      rw [getStep_updateStep_other tx.flow id c s hcne]
      exact hcs
    obtain ⟨fl2, h1, h2, h3, _⟩ := skipChildren_ok step.next _ hwf
    refine ⟨fl2, h1, ?_, h3⟩
    rw [h2]
    rfl
  unfold setStepFailure
  rw [hs]
  simp only [hsf, TransactionStep.changeStatus, TransactionStep.changeState,
    TransactionStep.getStates, TransactionStep.setStates,
    TransactionStep.isCompensating, TransactionStep.allowedStatusTargets,
    TransactionStep.allowedStateTargets, hstatus, hstate, hcopf,
    Bool.false_eq_true, if_false, if_true, ok_bind, List.mem_cons,
    List.mem_singleton, List.not_mem_nil, or_false, or_true, true_or,
    false_or, reduceCtorEq, reduceIte, Bool.not_false]
  rw [if_pos hmax]
  obtain ⟨fl2, hrun, hst2, hall⟩ := hskip _
  rw [hrun]
  simp only [ok_bind]
  refine ⟨_, rfl, ?_, ?_⟩
  · show fl2.state = TransactionState.INVOKING
    rw [hst2]
    exact hflow
  · exact hall

/-- Claim C2: one handler failure processed by `setStepFailure`, with the
retry bound the driver passes (`definition.maxRetries`, defaulting to
`DEFAULT_RETRIES`), increments `failures` by one, keeps it at most
`maxRetries + 1`, reaches `PERMANENT_FAILURE` with state `FAILED` exactly
when `failures > maxRetries`, leaves `TEMPORARY_FAILURE` otherwise so that
`canInvoke` re-dispatches the step, and once permanent neither `canInvoke`
nor `canCompensate` holds again, so the handler runs at most
`maxRetries + 1` times for the phase. -/
theorem C2_retry_invariant (tx : Tx) (id : String) (step : TransactionStep)
    (hs : getStep tx.flow id = some step)
    (hstatus : step.getStates.status = .WAITING)
    (hphase : (step.stepFailed = false ∧ step.invoke.state = .INVOKING) ∨
      (step.stepFailed = true ∧ step.compensate.state = .COMPENSATING))
    (hbound : step.failures ≤ step.definition.maxRetries.getD DEFAULT_RETRIES)
    (hnext : ∀ c ∈ step.next, c ≠ id ∧ ∃ cs, getStep tx.flow c = some cs ∧
      cs.stepFailed = false ∧
      (cs.invoke.state = .NOT_STARTED ∨ cs.invoke.state = .SKIPPED)) :
    ∃ tx2 step2,
      setStepFailure tx id (step.definition.maxRetries.getD DEFAULT_RETRIES) =
        .ok tx2 ∧
      getStep tx2.flow id = some step2 ∧
      step2.failures = step.failures + 1 ∧
      step2.failures ≤ step.definition.maxRetries.getD DEFAULT_RETRIES + 1 ∧
      ((step2.getStates.status = .PERMANENT_FAILURE ∧
          step2.getStates.state = .FAILED) ↔
        step2.failures > step.definition.maxRetries.getD DEFAULT_RETRIES) ∧
      (step2.failures ≤ step.definition.maxRetries.getD DEFAULT_RETRIES →
        step2.getStates.status = .TEMPORARY_FAILURE ∧
        ∀ fs, step2.canInvoke fs = true) ∧
      (step2.failures > step.definition.maxRetries.getD DEFAULT_RETRIES →
        ∀ fs, step2.canInvoke fs = false ∧ step2.canCompensate fs = false) := by
  have hidnn : id ∉ step.next := fun hmem => (hnext id hmem).1 rfl
  have hskip : ∀ (s : TransactionStep),
      ∃ fl2, skipChildren (updateStep tx.flow id s) step.next = .ok fl2 ∧
        getStep fl2 id = getStep (updateStep tx.flow id s) id := by
    intro s
    have hwf : ∀ c ∈ step.next, ∃ cs,
        getStep (updateStep tx.flow id s) c = some cs ∧
        cs.stepFailed = false ∧
        (cs.invoke.state = .NOT_STARTED ∨ cs.invoke.state = .SKIPPED) := by
      intro c hc
      obtain ⟨hcne, cs, hcs, hcf, hcss⟩ := hnext c hc
      refine ⟨cs, ?_, hcf, hcss⟩
      rw [getStep_updateStep_other tx.flow id c s hcne]
      exact hcs
    obtain ⟨fl2, h1, _, _, h4⟩ := skipChildren_ok step.next _ hwf
    exact ⟨fl2, h1, h4 id hidnn⟩
  unfold setStepFailure
  rw [hs]
  by_cases hgt : step.failures + 1 >
      step.definition.maxRetries.getD DEFAULT_RETRIES
  · rcases hphase with ⟨hsf, hinv⟩ | ⟨hsf, hcmp⟩
    · have hstI : step.invoke.status = .WAITING := by
        unfold TransactionStep.getStates at hstatus
        rw [hsf] at hstatus
        simpa using hstatus
      by_cases hcopf : step.definition.continueOnPermanentFailure = true
      · simp only [hsf, TransactionStep.changeStatus, TransactionStep.changeState,
          TransactionStep.getStates, TransactionStep.setStates,
          TransactionStep.isCompensating, TransactionStep.allowedStatusTargets,
          TransactionStep.allowedStateTargets, hstI, hinv, hcopf,
          Bool.false_eq_true, if_false, if_true, ok_bind, List.mem_cons,
          List.mem_singleton, List.not_mem_nil, or_false, or_true, true_or,
          false_or, reduceCtorEq, reduceIte, Bool.not_false]
        rw [if_pos hgt]
        obtain ⟨fl2, hrun, hpres⟩ := hskip _
        rw [hrun]
        simp only [ok_bind]
        refine ⟨?t1, ?s1, ?e1, ?g1a, ?g1b, ?g1c, ?g1d, ?g1e, ?g1f⟩
        case e1 => exact rfl
        case g1a =>
          show getStep fl2 id = _
          rw [hpres]
          exact getStep_updateStep_self tx.flow id _ step hs
        · rfl
        · exact Nat.succ_le_succ hbound
        · constructor
          · intro _
            exact hgt
          · intro _
            simp [TransactionStep.getStates, hsf]
        · intro hle
          have hle2 : step.failures + 1 ≤
              step.definition.maxRetries.getD DEFAULT_RETRIES := hle
          omega
        · intro _ fs
          constructor
          · simp [TransactionStep.canInvoke, TransactionStep.getStates,
              TransactionStep.isCompensating, hsf]
          · simp [TransactionStep.canCompensate, TransactionStep.getStates,
              TransactionStep.isCompensating, hsf]
      · have hcopf2 : step.definition.continueOnPermanentFailure = false := by
          revert hcopf
          cases step.definition.continueOnPermanentFailure <;> simp
        simp only [hsf, TransactionStep.changeStatus, TransactionStep.changeState,
          TransactionStep.getStates, TransactionStep.setStates,
          TransactionStep.isCompensating, TransactionStep.allowedStatusTargets,
          TransactionStep.allowedStateTargets, hstI, hinv, hcopf2,
          Bool.false_eq_true, if_false, if_true, ok_bind, List.mem_cons,
          List.mem_singleton, List.not_mem_nil, or_false, or_true, true_or,
          false_or, reduceCtorEq, reduceIte, Bool.not_false]
        rw [if_pos hgt]
        refine ⟨?t2, ?s2, ?e2, ?g2a, ?g2b, ?g2c, ?g2d, ?g2e, ?g2f⟩
        case e2 => exact rfl
        case g2a => exact getStep_updateStep_self tx.flow id _ step hs
        · rfl
        · exact Nat.succ_le_succ hbound
        · constructor
          · intro _
            exact hgt
          · intro _
            simp [TransactionStep.getStates, hsf]
        · intro hle
          have hle2 : step.failures + 1 ≤
              step.definition.maxRetries.getD DEFAULT_RETRIES := hle
          omega
        · intro _ fs
          constructor
          · simp [TransactionStep.canInvoke, TransactionStep.getStates,
              TransactionStep.isCompensating, hsf]
          · simp [TransactionStep.canCompensate, TransactionStep.getStates,
              TransactionStep.isCompensating, hsf]
    · have hstC : step.compensate.status = .WAITING := by
        unfold TransactionStep.getStates at hstatus
        rw [hsf] at hstatus
        simpa using hstatus
      simp only [hsf, TransactionStep.changeStatus, TransactionStep.changeState,
        TransactionStep.getStates, TransactionStep.setStates,
        TransactionStep.isCompensating, TransactionStep.allowedStatusTargets,
        TransactionStep.allowedStateTargets, hstC, hcmp,
        Bool.false_eq_true, if_false, if_true, ok_bind, List.mem_cons,
        List.mem_singleton, List.not_mem_nil, or_false, or_true, true_or,
        false_or, reduceCtorEq, reduceIte, Bool.not_false, Bool.not_true]
      rw [if_pos hgt]
      refine ⟨?t3, ?s3, ?e3, ?g3a, ?g3b, ?g3c, ?g3d, ?g3e, ?g3f⟩
      case e3 => exact rfl
      case g3a => exact getStep_updateStep_self tx.flow id _ step hs
      · rfl
      · exact Nat.succ_le_succ hbound
      · constructor
        · intro _
          exact hgt
        · intro _
          simp [TransactionStep.getStates, hsf]
      · intro hle
        have hle2 : step.failures + 1 ≤
            step.definition.maxRetries.getD DEFAULT_RETRIES := hle
        omega
      · intro _ fs
        constructor
        · simp [TransactionStep.canInvoke, TransactionStep.getStates,
            TransactionStep.isCompensating, hsf]
        · simp [TransactionStep.canCompensate, TransactionStep.getStates,
            TransactionStep.isCompensating, hsf]
  · rcases hphase with ⟨hsf, hinv⟩ | ⟨hsf, hcmp⟩
    · have hstI : step.invoke.status = .WAITING := by
        unfold TransactionStep.getStates at hstatus
        rw [hsf] at hstatus
        simpa using hstatus
      simp only [hsf, TransactionStep.changeStatus,
        TransactionStep.getStates, TransactionStep.setStates,
        TransactionStep.isCompensating, TransactionStep.allowedStatusTargets,
        hstI, Bool.false_eq_true, if_false, if_true, ok_bind, List.mem_cons,
        List.mem_singleton, List.not_mem_nil, or_false, or_true, true_or,
        false_or, reduceCtorEq, reduceIte]
      rw [if_neg hgt]
      refine ⟨?t4, ?s4, ?e4, ?g4a, ?g4b, ?g4c, ?g4d, ?g4e, ?g4f⟩
      case e4 => exact rfl
      case g4a => exact getStep_updateStep_self tx.flow id _ step hs
      · rfl
      · exact Nat.succ_le_succ hbound
      · constructor
        · intro hc
          exfalso
          have := hc.1
          simp [TransactionStep.getStates, hsf] at this
        · intro hc
          exact absurd hc hgt
      · intro _
        constructor
        · simp [TransactionStep.getStates, hsf]
        · intro fs
          simp [TransactionStep.canInvoke, TransactionStep.getStates,
            TransactionStep.isCompensating, hsf]
      · intro hc
        exact absurd hc hgt
    · have hstC : step.compensate.status = .WAITING := by
        unfold TransactionStep.getStates at hstatus
        rw [hsf] at hstatus
        simpa using hstatus
      simp only [hsf, TransactionStep.changeStatus,
        TransactionStep.getStates, TransactionStep.setStates,
        TransactionStep.isCompensating, TransactionStep.allowedStatusTargets,
        hstC, Bool.false_eq_true, if_false, if_true, ok_bind, List.mem_cons,
        List.mem_singleton, List.not_mem_nil, or_false, or_true, true_or,
        false_or, reduceCtorEq, reduceIte]
      rw [if_neg hgt]
      refine ⟨?t5, ?s5, ?e5, ?g5a, ?g5b, ?g5c, ?g5d, ?g5e, ?g5f⟩
      case e5 => exact rfl
      case g5a => exact getStep_updateStep_self tx.flow id _ step hs
      · rfl
      · exact Nat.succ_le_succ hbound
      · constructor
        · intro hc
          exfalso
          have := hc.1
          simp [TransactionStep.getStates, hsf] at this
        · intro hc
          exact absurd hc hgt
      · intro _
        constructor
        · simp [TransactionStep.getStates, hsf]
        · intro fs
          simp [TransactionStep.canInvoke, TransactionStep.getStates,
            TransactionStep.isCompensating, hsf]
      · intro hc
        exact absurd hc hgt


/-- A concrete step for the C1 scenario. -/
def c1Step (id : String) (next : List String) (depth : Nat) (st : StepStates)
    (defn : StepDefinition) : TransactionStep :=
  { id := id, definition := defn, invoke := st,
    compensate := ⟨.DORMANT, .IDLE⟩, next := next, depth := depth }

/-- The flow `root → B(continueOnPermanentFailure, maxRetries := 0) → C → D`
with `B` waiting on its failing invoke handler. -/
def c1Flow : TransactionFlow :=
  { transactionModelId := "model", transactionId := "tx1", state := .INVOKING,
    steps :=
      [(ROOT_STEP, { rootStep with next := ["_root.B"] }),
       ("_root.B", c1Step "_root.B" ["_root.B.C"] 1 ⟨.INVOKING, .WAITING⟩
          { action := some "B", maxRetries := some 0,
            continueOnPermanentFailure := true }),
       ("_root.B.C", c1Step "_root.B.C" ["_root.B.C.D"] 2 ⟨.NOT_STARTED, .IDLE⟩
          { action := some "C" }),
       ("_root.B.C.D", c1Step "_root.B.C.D" [] 3 ⟨.NOT_STARTED, .IDLE⟩
          { action := some "D" })] }

/-- Claim C1 counterexample: B fails permanently (failures becomes
1 > maxRetries = 0) during the invoke phase of an `INVOKING` flow with
`continueOnPermanentFailure` set.  The claim asserts every descendant
reachable through `next` edges transitively is set to SKIPPED, but the
grandchild `_root.B.C.D` keeps state `NOT_STARTED` (only the direct child
`_root.B.C` is skipped); the flow does continue in state `INVOKING`. -/
theorem C1_counterexample :
    (setStepFailure { flow := c1Flow } "_root.B" 0).map (fun tx2 =>
        (tx2.flow.state,
         (getStep tx2.flow "_root.B.C").map (fun s => s.getStates.state),
         (getStep tx2.flow "_root.B.C.D").map (fun s => s.getStates.state))) =
      .ok (.INVOKING, some .SKIPPED, some .NOT_STARTED) ∧
      TransactionState.NOT_STARTED ≠ TransactionState.SKIPPED :=
  ⟨rfl, by decide⟩

/-- Witness for C1 amended at the concrete C1 flow. -/
theorem C1_amended_witness :
    ∃ tx2, setStepFailure { flow := c1Flow } "_root.B" 0 = .ok tx2 ∧
      tx2.flow.state = .INVOKING ∧
      (∀ c ∈ (c1Step "_root.B" ["_root.B.C"] 1 ⟨.INVOKING, .WAITING⟩
          { action := some "B", maxRetries := some 0,
            continueOnPermanentFailure := true }).next,
        ∃ cs, getStep tx2.flow c = some cs ∧
          cs.stepFailed = false ∧ cs.invoke.state = .SKIPPED) :=
  C1_amended { flow := c1Flow } "_root.B" _ 0 rfl rfl rfl rfl (by decide) rfl
    rfl (by decide)

/-- Witness for C2 at the concrete C1 flow: one more failure of `B` hits
the permanent-failure branch. -/
theorem C2_retry_invariant_witness :
    ∃ tx2 step2,
      setStepFailure { flow := c1Flow } "_root.B"
          ((c1Step "_root.B" ["_root.B.C"] 1 ⟨.INVOKING, .WAITING⟩
            { action := some "B", maxRetries := some 0,
              continueOnPermanentFailure := true }).definition.maxRetries.getD
            DEFAULT_RETRIES) = .ok tx2 ∧
      getStep tx2.flow "_root.B" = some step2 ∧
      step2.failures = (c1Step "_root.B" ["_root.B.C"] 1 ⟨.INVOKING, .WAITING⟩
        { action := some "B", maxRetries := some 0,
          continueOnPermanentFailure := true }).failures + 1 ∧
      step2.failures ≤ (c1Step "_root.B" ["_root.B.C"] 1 ⟨.INVOKING, .WAITING⟩
        { action := some "B", maxRetries := some 0,
          continueOnPermanentFailure := true }).definition.maxRetries.getD
          DEFAULT_RETRIES + 1 ∧
      ((step2.getStates.status = .PERMANENT_FAILURE ∧
          step2.getStates.state = .FAILED) ↔
        step2.failures > (c1Step "_root.B" ["_root.B.C"] 1 ⟨.INVOKING, .WAITING⟩
          { action := some "B", maxRetries := some 0,
            continueOnPermanentFailure := true }).definition.maxRetries.getD
            DEFAULT_RETRIES) ∧
      (step2.failures ≤ (c1Step "_root.B" ["_root.B.C"] 1 ⟨.INVOKING, .WAITING⟩
          { action := some "B", maxRetries := some 0,
            continueOnPermanentFailure := true }).definition.maxRetries.getD
            DEFAULT_RETRIES →
        step2.getStates.status = .TEMPORARY_FAILURE ∧
        ∀ fs, step2.canInvoke fs = true) ∧
      (step2.failures > (c1Step "_root.B" ["_root.B.C"] 1 ⟨.INVOKING, .WAITING⟩
          { action := some "B", maxRetries := some 0,
            continueOnPermanentFailure := true }).definition.maxRetries.getD
            DEFAULT_RETRIES →
        ∀ fs, step2.canInvoke fs = false ∧ step2.canCompensate fs = false) :=
  C2_retry_invariant { flow := c1Flow } "_root.B" _ rfl rfl
    (Or.inl ⟨rfl, rfl⟩) (by decide) (by decide)


/-- The root entry of the C9 witness flow. -/
def c9Root : TransactionStep := { rootStep with next := ["_root.A"] }

/-- The step `_root.A` of the C9 witness flow, about to be dispatched. -/
def c9StepA : TransactionStep :=
  c1Step "_root.A" [] 1 ⟨.NOT_STARTED, .IDLE⟩ { action := some "A" }

/-- A one-step flow for the C9 witness. -/
def c9Flow : TransactionFlow :=
  { transactionModelId := "model", transactionId := "tx1", state := .INVOKING,
    steps := [(ROOT_STEP, c9Root), ("_root.A", c9StepA)] }

/-- Witness for C9 at the one-step flow. -/
theorem C9_dispatch_payload_witness :
    ∃ fl2 payload step2,
      dispatchStep c9Flow none 0 "_root.A" = .ok (fl2, payload) ∧
      payload.metadata.idempotency_key =
        c9Flow.transactionId ++ ":" ++ "A" ++ ":" ++
          (handlerTypeOf c9StepA).str ∧
      payload.metadata.reply_to_topic =
        "trans" ++ ":" ++ c9Flow.transactionModelId ∧
      payload.metadata.attempt = c9StepA.attempts + 1 ∧
      getStep fl2 "_root.A" = some step2 ∧
      step2.attempts = c9StepA.attempts + 1 :=
  C9_dispatch_payload c9Flow none 0 "_root.A" "A" c9StepA c9Root rfl rfl
    (by decide) rfl


/-! ## Claim C5: eligibility predicates -/

/-- The sibling walk of `canMoveForward` succeeds with `true` exactly when
every sibling present in the table has a terminal invoke state. -/
theorem allInvokeFinished_iff (fl : TransactionFlow) (l : List String)
    (hwf : ∀ sib ∈ l, (getStep fl sib).isSome) :
    (allInvokeFinished fl l = .ok true ↔
      ∀ sib ∈ l, ∀ s, getStep fl sib = some s →
        s.invoke.state ∈ invokeDoneStates) := by
  induction l with
  | nil =>
    constructor
    · intro _ d hd
      simp at hd
    · intro _
      rfl
  | cons sib rest ih =>
    obtain ⟨s, hsib⟩ :=
      Option.isSome_iff_exists.mp (hwf sib (List.mem_cons_self sib rest))
    have ih2 := ih (fun d hd => hwf d (List.mem_cons_of_mem sib hd))
    unfold allInvokeFinished
    rw [hsib]
    show ((if s.invoke.state ∈ invokeDoneStates then allInvokeFinished fl rest
      else Except.ok false) = .ok true) ↔ _
    by_cases hmem : s.invoke.state ∈ invokeDoneStates
    · rw [if_pos hmem]
      constructor
      · intro h d hd t ht
        rcases List.mem_cons.mp hd with h1 | h1
        · subst h1
          rw [hsib] at ht
          injection ht with h3
          subst h3
          exact hmem
        · exact (ih2.mp h) d h1 t ht
      · intro h
        exact ih2.mpr (fun d hd t ht => h d (List.mem_cons_of_mem sib hd) t ht)
    · rw [if_neg hmem]
      constructor
      · intro h
        simp at h
      · intro h
        exact absurd (h sib (List.mem_cons_self sib rest) s hsib) hmem

/-- The child walk of `canMoveBackward` succeeds with `true` exactly when
every child present in the table has a terminal compensate state. -/
theorem allCompensateSettled_iff (fl : TransactionFlow) (l : List String)
    (hwf : ∀ sib ∈ l, (getStep fl sib).isSome) :
    (allCompensateSettled fl l = .ok true ↔
      ∀ sib ∈ l, ∀ s, getStep fl sib = some s →
        s.compensate.state ∈ compensateDoneStates) := by
  induction l with
  | nil =>
    constructor
    · intro _ d hd
      simp at hd
    · intro _
      rfl
  | cons sib rest ih =>
    obtain ⟨s, hsib⟩ :=
      Option.isSome_iff_exists.mp (hwf sib (List.mem_cons_self sib rest))
    have ih2 := ih (fun d hd => hwf d (List.mem_cons_of_mem sib hd))
    unfold allCompensateSettled
    rw [hsib]
    show ((if s.compensate.state ∈ compensateDoneStates then
      allCompensateSettled fl rest else Except.ok false) = .ok true) ↔ _
    by_cases hmem : s.compensate.state ∈ compensateDoneStates
    · rw [if_pos hmem]
      constructor
      · intro h d hd t ht
        rcases List.mem_cons.mp hd with h1 | h1
        · subst h1
          rw [hsib] at ht
          injection ht with h3
          subst h3
          exact hmem
        · exact (ih2.mp h) d h1 t ht
      · intro h
        exact ih2.mpr (fun d hd t ht => h d (List.mem_cons_of_mem sib hd) t ht)
    · rw [if_neg hmem]
      constructor
      · intro h
        simp at h
      · intro h
        exact absurd (h sib (List.mem_cons_self sib rest) s hsib) hmem

/-- Claim C5: `canMoveForward(flow, previous)` is true exactly when
`previous.definition.noWait` is set or every sibling under the parent of
`previous` has invoke state in `{DONE, FAILED, SKIPPED}`;
`canMoveBackward(flow, step)` is true exactly when `step.next` is empty or
every child has compensate state in `{DONE, REVERTED, FAILED, DORMANT}`;
and outside of compensation a child of the root may always continue. -/
theorem C5_eligibility :
    (∀ (fl : TransactionFlow) (prev parent : TransactionStep),
      getPreviousStep fl prev = some parent →
      (∀ sib ∈ parent.next, (getStep fl sib).isSome) →
      (canMoveForward fl prev = .ok true ↔
        (prev.definition.noWait = true ∨
         ∀ sib ∈ parent.next, ∀ s, getStep fl sib = some s →
           s.invoke.state ∈ invokeDoneStates))) ∧
    (∀ (fl : TransactionFlow) (step : TransactionStep),
      (∀ c ∈ step.next, (getStep fl c).isSome) →
      (canMoveBackward fl step = .ok true ↔
        (step.next = [] ∨
         ∀ c ∈ step.next, ∀ s, getStep fl c = some s →
           s.compensate.state ∈ compensateDoneStates))) ∧
    (∀ (fl : TransactionFlow) (step prev : TransactionStep),
      fl.state ≠ .COMPENSATING →
      getPreviousStep fl step = some prev →
      prev.id = ROOT_STEP →
      canContinue fl step = .ok true) := by
  refine ⟨?_, ?_, ?_⟩
  · intro fl prev parent hpar hsibs
    unfold canMoveForward
    rw [hpar]
    show ((if prev.definition.noWait = true then Except.ok true
      else allInvokeFinished fl parent.next) = .ok true) ↔ _
    by_cases hnw : prev.definition.noWait = true
    · rw [if_pos hnw]
      exact ⟨fun _ => Or.inl hnw, fun _ => rfl⟩
    · rw [if_neg hnw]
      rw [allInvokeFinished_iff fl parent.next hsibs]
      constructor
      · intro h
        exact Or.inr h
      · intro h
        rcases h with h | h
        · exact absurd h hnw
        · exact h
  · intro fl step hch
    unfold canMoveBackward
    by_cases hni : step.next.isEmpty = true
    · rw [if_pos hni]
      have : step.next = [] := List.isEmpty_iff.mp hni
      exact ⟨fun _ => Or.inl this, fun _ => rfl⟩
    · rw [if_neg hni]
      rw [allCompensateSettled_iff fl step.next hch]
      constructor
      · intro h
        exact Or.inr h
      · intro h
        rcases h with h | h
        · exact absurd (List.isEmpty_iff.mpr h) hni
        · exact h
  · intro fl step prev hnc hprev hid
    unfold canContinue
    rw [if_neg hnc, hprev]
    show (if (prev.id == ROOT_STEP) = true then Except.ok true
      else canMoveForward fl prev) = .ok true
    rw [if_pos]
    simp [hid]

/-- Witness for C5 at the one-step flow. -/
theorem C5_eligibility_witness :
    (canMoveForward c9Flow c9StepA = .ok true ↔
      (c9StepA.definition.noWait = true ∨
       ∀ sib ∈ c9Root.next, ∀ s, getStep c9Flow sib = some s →
         s.invoke.state ∈ invokeDoneStates)) ∧
    (canMoveBackward c9Flow c9StepA = .ok true ↔
      (c9StepA.next = [] ∨
       ∀ c ∈ c9StepA.next, ∀ s, getStep c9Flow c = some s →
         s.compensate.state ∈ compensateDoneStates)) ∧
    canContinue c9Flow c9StepA = .ok true :=
  ⟨C5_eligibility.1 c9Flow c9StepA c9Root rfl (by decide),
   C5_eligibility.2.1 c9Flow c9StepA (by decide),
   C5_eligibility.2.2 c9Flow c9StepA c9Root (by decide) rfl rfl⟩


/-! ## Claim C3: pass finalization -/

/-- The effect of one loop iteration of `checkAllSteps` on the loop locals,
expressed through the classification of the step. -/
def bumpAcc (acc : PassResult) (stepId : String) : StepClass → PassResult
  | .root => acc
  | .blocked => acc
  | .waiting => { acc with hasWaiting := true }
  | .dispatch => { acc with nextIds := acc.nextIds ++ [stepId] }
  | .doneSkipped => { acc with completed := acc.completed + 1, hasSkipped := true }
  | .doneReverted => { acc with completed := acc.completed + 1, hasReverted := true }
  | .doneFatal => { acc with completed := acc.completed + 1, hasFailed := true }
  | .doneIgnored =>
    { acc with completed := acc.completed + 1, hasIgnoredFailure := true }
  | .doneOther => { acc with completed := acc.completed + 1 }
  | .crash => acc

/-- The loop body agrees with the classification. -/
theorem classifyStep_eq (fl : TransactionFlow) (acc : PassResult)
    (stepId : String) (h : classOf fl stepId ≠ .crash) :
    classifyStep fl acc stepId = .ok (bumpAcc acc stepId (classOf fl stepId)) := by
  unfold classOf at h
  unfold classifyStep classOf
  by_cases hroot : (stepId == ROOT_STEP) = true
  · simp [hroot, bumpAcc]
  · have hroot2 : (stepId == ROOT_STEP) = false := by
      revert hroot
      cases (stepId == ROOT_STEP) <;> simp
    simp only [hroot2, Bool.false_eq_true, if_false] at h ⊢
    cases hgs : getStep fl stepId with
    | none =>
      simp [hgs] at h
    | some stepDef =>
      simp only [hgs] at h ⊢
      cases hcc : canContinue fl stepDef with
      | error e =>
        simp [hcc] at h
      | ok cont =>
        simp only [hcc, ok_bind]
        by_cases hcont : (!cont) = true
        · simp [hcont, bumpAcc]
        · have hcont2 : (!cont) = false := by
            revert hcont
            cases cont <;> simp
          simp only [hcont2, Bool.false_eq_true, if_false]
          by_cases hw : (stepDef.getStates.status ==
              TransactionStepStatus.WAITING) = true
          · simp [hw, bumpAcc]
          · have hw2 : (stepDef.getStates.status ==
                TransactionStepStatus.WAITING) = false := by
              revert hw
              cases (stepDef.getStates.status == TransactionStepStatus.WAITING)
                <;> simp
            simp only [hw2, Bool.false_eq_true, if_false]
            by_cases hd : (stepDef.canInvoke fl.state ||
                stepDef.canCompensate fl.state) = true
            · simp [hd, bumpAcc]
            · have hd2 : (stepDef.canInvoke fl.state ||
                  stepDef.canCompensate fl.state) = false := by
                revert hd
                cases (stepDef.canInvoke fl.state ||
                  stepDef.canCompensate fl.state) <;> simp
              simp only [hd2, Bool.false_eq_true, if_false]
              by_cases hsk : (stepDef.getStates.state ==
                  TransactionState.SKIPPED) = true
              · simp [hsk, bumpAcc]
              · have hsk2 : (stepDef.getStates.state ==
                    TransactionState.SKIPPED) = false := by
                  revert hsk
                  cases (stepDef.getStates.state == TransactionState.SKIPPED)
                    <;> simp
                simp only [hsk2, Bool.false_eq_true, if_false]
                by_cases hrv : (stepDef.getStates.state ==
                    TransactionState.REVERTED) = true
                · simp [hrv, bumpAcc]
                · have hrv2 : (stepDef.getStates.state ==
                      TransactionState.REVERTED) = false := by
                    revert hrv
                    cases (stepDef.getStates.state == TransactionState.REVERTED)
                      <;> simp
                  simp only [hrv2, Bool.false_eq_true, if_false]
                  by_cases hfa : (stepDef.getStates.state ==
                      TransactionState.FAILED) = true
                  · by_cases hcopf :
                        stepDef.definition.continueOnPermanentFailure = true
                    · simp [hfa, hcopf, bumpAcc]
                    · have hcopf2 :
                          stepDef.definition.continueOnPermanentFailure
                            = false := by
                        revert hcopf
                        cases stepDef.definition.continueOnPermanentFailure
                          <;> simp
                      simp [hfa, hcopf2, bumpAcc]
                  · have hfa2 : (stepDef.getStates.state ==
                        TransactionState.FAILED) = false := by
                      revert hfa
                      cases (stepDef.getStates.state == TransactionState.FAILED)
                        <;> simp
                    simp [hfa2, bumpAcc]

/-- A full pass is the pure fold of `bumpAcc` over the classifications. -/
theorem runPass_eq (fl : TransactionFlow) (ids : List String)
    (acc : PassResult) (h : ∀ i ∈ ids, classOf fl i ≠ .crash) :
    ids.foldlM (classifyStep fl) acc =
      .ok (ids.foldl (fun a i => bumpAcc a i (classOf fl i)) acc) := by
  induction ids generalizing acc with
  | nil => rfl
  | cons i rest ih =>
    rw [List.foldlM_cons, classifyStep_eq fl acc i (h i (List.mem_cons_self i rest)),
      ok_bind, List.foldl_cons]
    exact ih _ (fun d hd => h d (List.mem_cons_of_mem i hd))

theorem bumpAcc_hasFailed (acc : PassResult) (stepId : String) (c : StepClass) :
    (bumpAcc acc stepId c).hasFailed =
      (acc.hasFailed || (c == .doneFatal)) := by
  cases c <;> simp [bumpAcc]

theorem bumpAcc_hasReverted (acc : PassResult) (stepId : String) (c : StepClass) :
    (bumpAcc acc stepId c).hasReverted =
      (acc.hasReverted || (c == .doneReverted)) := by
  cases c <;> simp [bumpAcc]

theorem bumpAcc_hasSkipped (acc : PassResult) (stepId : String) (c : StepClass) :
    (bumpAcc acc stepId c).hasSkipped =
      (acc.hasSkipped || (c == .doneSkipped)) := by
  cases c <;> simp [bumpAcc]

theorem bumpAcc_hasIgnoredFailure (acc : PassResult) (stepId : String)
    (c : StepClass) :
    (bumpAcc acc stepId c).hasIgnoredFailure =
      (acc.hasIgnoredFailure || (c == .doneIgnored)) := by
  cases c <;> simp [bumpAcc]

theorem foldl_bump_hasFailed (fl : TransactionFlow) (ids : List String) :
    ∀ acc : PassResult,
      (ids.foldl (fun a i => bumpAcc a i (classOf fl i)) acc).hasFailed =
        (acc.hasFailed || ids.any (fun i => classOf fl i == .doneFatal)) := by
  induction ids with
  | nil => simp
  | cons i rest ih =>
    intro acc
    rw [List.foldl_cons, List.any_cons, ih, bumpAcc_hasFailed, Bool.or_assoc]

theorem foldl_bump_hasReverted (fl : TransactionFlow) (ids : List String) :
    ∀ acc : PassResult,
      (ids.foldl (fun a i => bumpAcc a i (classOf fl i)) acc).hasReverted =
        (acc.hasReverted || ids.any (fun i => classOf fl i == .doneReverted)) := by
  induction ids with
  | nil => simp
  | cons i rest ih =>
    intro acc
    rw [List.foldl_cons, List.any_cons, ih, bumpAcc_hasReverted, Bool.or_assoc]

theorem foldl_bump_hasSkipped (fl : TransactionFlow) (ids : List String) :
    ∀ acc : PassResult,
      (ids.foldl (fun a i => bumpAcc a i (classOf fl i)) acc).hasSkipped =
        (acc.hasSkipped || ids.any (fun i => classOf fl i == .doneSkipped)) := by
  induction ids with
  | nil => simp
  | cons i rest ih =>
    intro acc
    rw [List.foldl_cons, List.any_cons, ih, bumpAcc_hasSkipped, Bool.or_assoc]

theorem foldl_bump_hasIgnoredFailure (fl : TransactionFlow) (ids : List String) :
    ∀ acc : PassResult,
      (ids.foldl (fun a i => bumpAcc a i (classOf fl i)) acc).hasIgnoredFailure =
        (acc.hasIgnoredFailure ||
          ids.any (fun i => classOf fl i == .doneIgnored)) := by
  induction ids with
  | nil => simp
  | cons i rest ih =>
    intro acc
    rw [List.foldl_cons, List.any_cons, ih, bumpAcc_hasIgnoredFailure,
      Bool.or_assoc]

/-- What the finalization tail does when the pass completed every non-root
step. -/
theorem finalizePass_spec (flow : TransactionFlow) (r : PassResult)
    (total : Nat) (h : r.completed = total) :
    (finalizePass flow r total).state =
      (if r.hasFailed = true then TransactionState.FAILED
       else if r.hasReverted = true then TransactionState.REVERTED
       else TransactionState.DONE) ∧
    (finalizePass flow r total).hasSkippedSteps =
      (flow.hasSkippedSteps || r.hasSkipped) ∧
    (finalizePass flow r total).hasFailedSteps =
      (flow.hasFailedSteps || r.hasIgnoredFailure) := by
  unfold finalizePass
  rw [if_pos (by simp [h])]
  rcases r with ⟨hsk, hif, hfa, hwa, hrv, comp, nx⟩
  cases hsk <;> cases hif <;> cases hfa <;> cases hrv <;> simp

/-- Claim C3: in a scheduling pass where the completed count equals the
number of non-root steps (and the compensation transition is not taken),
`checkAllSteps` finalizes the flow state to `FAILED` when some step
classified as a fatal (non-ignored) permanent failure, otherwise to
`REVERTED` when some step reverted, otherwise to `DONE`; and it sets
`hasSkippedSteps` and `hasFailedSteps` when some step was skipped or
permanently failed with `continueOnPermanentFailure`. -/
theorem C3_finalization (fl : TransactionFlow) (r : PassResult)
    (hok : runPass fl (activeOrder fl) = .ok r)
    (hcrash : ∀ i ∈ activeOrder fl, classOf fl i ≠ .crash)
    (hnb : (fl.state == TransactionState.WAITING_TO_COMPENSATE &&
      r.nextIds.isEmpty && !r.hasWaiting) = false)
    (hcomp : r.completed = (activeOrder fl).length - 1) :
    ∃ res : CheckResult, checkAllSteps fl = .ok res ∧
      res.completed = (activeOrder fl).length - 1 ∧
      res.flow.state =
        (if (activeOrder fl).any (fun i => classOf fl i == .doneFatal) then
          TransactionState.FAILED
         else if (activeOrder fl).any (fun i => classOf fl i == .doneReverted)
           then TransactionState.REVERTED
         else TransactionState.DONE) ∧
      res.flow.hasSkippedSteps =
        (fl.hasSkippedSteps ||
          (activeOrder fl).any (fun i => classOf fl i == .doneSkipped)) ∧
      res.flow.hasFailedSteps =
        (fl.hasFailedSteps ||
          (activeOrder fl).any (fun i => classOf fl i == .doneIgnored)) := by
  have hre : runPass fl (activeOrder fl) =
      .ok ((activeOrder fl).foldl (fun a i => bumpAcc a i (classOf fl i)) {}) :=
    runPass_eq fl (activeOrder fl) {} hcrash
  rw [hok] at hre
  injection hre with hr
  obtain ⟨hf1, hf2, hf3⟩ :=
    finalizePass_spec fl r ((activeOrder fl).length - 1) hcomp
  unfold checkAllSteps
  simp only [hok, ok_bind, hnb, Bool.false_eq_true, if_false]
  refine ⟨?res, ?heq, ?hc1, ?hc2, ?hc3, ?hc4⟩
  case heq => exact rfl
  case hc1 => exact hcomp
  case hc2 =>
    show (finalizePass fl r ((activeOrder fl).length - 1)).state = _
    rw [hf1, hr, foldl_bump_hasFailed, foldl_bump_hasReverted]
    simp
  case hc3 =>
    show (finalizePass fl r ((activeOrder fl).length - 1)).hasSkippedSteps = _
    rw [hf2, hr, foldl_bump_hasSkipped]
    simp
  case hc4 =>
    show (finalizePass fl r ((activeOrder fl).length - 1)).hasFailedSteps = _
    rw [hf3, hr, foldl_bump_hasIgnoredFailure]
    simp


/-- The flow for the C3 witness: `A` is `DONE` and its child `B` failed
permanently without `continueOnPermanentFailure`. -/
def c3Flow : TransactionFlow :=
  { transactionModelId := "model", transactionId := "tx1", state := .INVOKING,
    steps :=
      [(ROOT_STEP, { rootStep with next := ["_root.A"] }),
       ("_root.A", c1Step "_root.A" ["_root.A.B"] 1 ⟨.DONE, .OK⟩
          { action := some "A" }),
       ("_root.A.B", c1Step "_root.A.B" [] 2 ⟨.FAILED, .PERMANENT_FAILURE⟩
          { action := some "B" })] }

/-- The pass result over `c3Flow`. -/
def c3Pass : PassResult :=
  { hasFailed := true, completed := 2 }

/-- Witness for C3 at the concrete flow: the pass completes both non-root
steps and the fatal failure of `B` finalizes the flow to `FAILED`. -/
theorem C3_finalization_witness :
    ∃ res : CheckResult, checkAllSteps c3Flow = .ok res ∧
      res.completed = (activeOrder c3Flow).length - 1 ∧
      res.flow.state =
        (if (activeOrder c3Flow).any
            (fun i => classOf c3Flow i == .doneFatal) then
          TransactionState.FAILED
         else if (activeOrder c3Flow).any
            (fun i => classOf c3Flow i == .doneReverted)
           then TransactionState.REVERTED
         else TransactionState.DONE) ∧
      res.flow.hasSkippedSteps =
        (c3Flow.hasSkippedSteps ||
          (activeOrder c3Flow).any (fun i => classOf c3Flow i == .doneSkipped)) ∧
      res.flow.hasFailedSteps =
        (c3Flow.hasFailedSteps ||
          (activeOrder c3Flow).any (fun i => classOf c3Flow i == .doneIgnored)) :=
  C3_finalization c3Flow c3Pass rfl (by decide) rfl rfl


/-! ## Claim C6: rebuilding the step table from a checkpoint -/

/-- A definition whose root action `A` carries `maxRetries := 5` and one
child action `B`. -/
def c6Def : StepsDef :=
  .node (some "A") (some 5) false false false none
    [.node (some "B") none false false false none []]

/-- A checkpointed step for `_root.A` whose structural fields disagree
with `c6Def`: a stale `maxRetries := 1`, a stale `depth := 7` and a stale
`next` list. -/
def c6ExistingA : TransactionStep :=
  { id := "_root.A", depth := 7,
    definition := { action := some "A", maxRetries := some 1 },
    invoke := ⟨.DONE, .OK⟩, compensate := ⟨.DORMANT, .IDLE⟩,
    next := ["junk"], attempts := 9, failures := 2, response := some 42 }

/-- Claim C6 counterexample: the claim says `id`, `depth`, `next` and
`definition` are recomputed from the definition being built, but
`buildSteps` reuses the whole existing record: the rebuilt step keeps the
stale `definition.maxRetries = 1` (the definition being built says 5), the
stale `depth = 7` (the rebuilt depth would be 1) and its stale `next` with
the new child id appended, while non-structural attributes such as
`attempts = 9` are indeed preserved. -/
theorem C6_counterexample :
    (buildSteps c6Def [("_root.A", c6ExistingA)] 10).map (fun st =>
      (st.find? (fun p => p.1 == "_root.A")).map (fun p =>
        (p.2.definition.maxRetries, p.2.depth, p.2.next, p.2.attempts))) =
      .ok (some (some 1, 7, ["junk", "_root.A.B"], 9)) ∧
    c6Def.policy.maxRetries = some 5 ∧ (some 1 : Option Nat) ≠ some 5 :=
  ⟨rfl, rfl, by decide⟩

/-- Claim C6 amended: when rehydrating, an id present in the existing
table reuses the existing step record wholesale: every attribute
(non-structural ones such as states, statuses, attempts, failures,
lastAttempt and response, but also the structural `id`, `depth` and
`definition`) is taken from the existing step, and the ids of the children
found in the definition being built are appended to its existing `next`
list; only ids absent from the table get freshly computed structural
fields. -/
theorem C6_amended (ex : TransactionStep) :
    buildSteps c6Def [("_root.A", ex)] 10 =
      .ok [(ROOT_STEP, { rootStep with next := ["_root.A"] }),
           ("_root.A", { ex with next := ex.next ++ ["_root.A.B"] }),
           ("_root.A.B", freshStep "_root.A.B" 2 { action := some "B" })] := by
  rfl

/-! ## Claim C7: idempotent external completion (modelled from the spec) -/

/-- The async-style step of the C7 witness, awaiting external completion. -/
def c7StepA : TransactionStep :=
  c1Step "_root.A" [] 1 ⟨.INVOKING, .WAITING⟩ { action := some "A" }

/-- A transaction whose only step is waiting for `registerStepSuccess`. -/
def c7Tx0 : Tx :=
  { flow :=
    { transactionModelId := "model", transactionId := "tx1", state := .INVOKING,
      steps := [(ROOT_STEP, { rootStep with next := ["_root.A"] }),
                ("_root.A", c7StepA)] } }

/-- A handler for the C7 witness. -/
def c7Handler : Handler := fun _ _ => .ok 0

/-- The step after the first successful registration. -/
def c7StepA2 : TransactionStep :=
  { c7StepA with invoke := ⟨.DONE, .OK⟩, response := some 7 }

/-- The terminal transaction after one `registerStepSuccess` call. -/
def c7Tx1 : Tx :=
  { flow :=
    { transactionModelId := "model", transactionId := "tx1", state := .DONE,
      steps := [(ROOT_STEP, { rootStep with next := ["_root.A"] }),
                ("_root.A", c7StepA2)] } }

/-- Claim C7 (modelled from the spec, section 4.6): a second
`registerStepSuccess` call with the same idempotency key after the target
step has transitioned out of `WAITING` (or out of the matching phase) is a
no-op returning the current transaction, so the terminal flow equals the
one obtained from a single call. -/
theorem C7_register_idempotent (h : Handler) (now fuel : Nat) (tx : Tx)
    (key txId action phaseStr : String) (r : Nat) (id : String)
    (step : TransactionStep)
    (hsplit : splitOnChar key ':' = [txId, action, phaseStr])
    (htx : (txId != tx.flow.transactionId) = false)
    (hfind : findStepByAction tx.flow action = some (id, step))
    (hnw : (step.getStates.status == TransactionStepStatus.WAITING &&
      handlerTypeOf step == (if phaseStr == "compensate" then
        TransactionHandlerType.COMPENSATE else TransactionHandlerType.INVOKE))
      = false) :
    registerStepSuccess h now fuel tx key r = .ok (tx, []) := by
  unfold registerStepSuccess
  rw [hsplit]
  show (if (txId != tx.flow.transactionId) = true then
      Except.error "transaction not found"
    else
      match findStepByAction tx.flow action with
      | none => Except.error "step not found"
      | some (id, step) =>
        if (step.getStates.status == TransactionStepStatus.WAITING &&
            handlerTypeOf step == (if phaseStr == "compensate" then
              TransactionHandlerType.COMPENSATE
            else TransactionHandlerType.INVOKE)) = true then do
          let fl ← setStepSuccess tx.flow id r
          executeNext h now fuel { tx with flow := fl }
        else
          Except.ok (tx, [])) = Except.ok (tx, [])
  rw [htx]
  simp only [Bool.false_eq_true, if_false, hfind, hnw]

/-- Witness for C7: calling the completion path twice on a one-step flow
yields the same terminal flow as calling it once. -/
theorem C7_register_idempotent_witness :
    registerStepSuccess c7Handler 0 5 c7Tx0 "tx1:A:invoke" 7 =
      .ok (c7Tx1, []) ∧
    registerStepSuccess c7Handler 0 5 c7Tx1 "tx1:A:invoke" 7 =
      .ok (c7Tx1, []) :=
  ⟨rfl,
   C7_register_idempotent c7Handler 0 5 c7Tx1 "tx1:A:invoke" "tx1" "A"
     "invoke" 7 "_root.A" c7StepA2 rfl rfl rfl rfl⟩

end Saga
